import Mathlib

/-!
# Verification of the demandas task-store service (src/server.js)

A shallow embedding of the HTTP/SQLite data-access layer of the service:
JavaScript values and truthiness, the JSON text codec used for the two
list-valued columns (`diasSemana`, `atribuidos`), the SQLite row model, and
the route handlers (list, create, update, delete, list-by-employee,
list-by-status).  The source file contains two concatenated variants of the
server; the embedding follows the later, fuller variant (validation on
POST/PUT/DELETE, `ORDER BY dataCriacao DESC` on reads), noting where the
first variant differs.
-/

mutual
/-- JavaScript/JSON values as they appear in request bodies and decoded
columns.  Numbers are modelled as integers: the service only ever compares
and stores ids and integer-like data, and no claim involves fractional
numerics.  Arrays and objects are mutual inductives so that structural
recursion over them stays elementary. -/
inductive JSVal : Type where
  | null : JSVal
  | bool (b : Bool) : JSVal
  | num (n : Int) : JSVal
  | str (s : String) : JSVal
  | arr (elems : JSArr) : JSVal
  | obj (fields : JSObj) : JSVal
  deriving DecidableEq, Repr

/-- A JavaScript array of `JSVal`s. -/
inductive JSArr : Type where
  | nil : JSArr
  | cons (v : JSVal) (rest : JSArr) : JSArr
  deriving DecidableEq, Repr

/-- A JavaScript object: an ordered list of string-keyed fields. -/
inductive JSObj : Type where
  | nil : JSObj
  | cons (k : String) (v : JSVal) (rest : JSObj) : JSObj
  deriving DecidableEq, Repr
end

/-- JavaScript truthiness of a value: `null`, `false`, `0` and `""` are
falsy; every other value (including empty arrays and objects) is truthy. -/
def truthy : JSVal → Bool
  | .null => false
  | .bool b => b
  | .num n => n != 0
  | .str s => s != ""
  | .arr _ => true
  | .obj _ => true

/-- Truthiness of a possibly-absent object property (`none` models a missing
property, i.e. `undefined`, which is falsy). -/
def truthyOpt : Option JSVal → Bool
  | none => false
  | some v => truthy v

/-- `a || b` on a possibly-absent left operand, as used for the handlers'
defaulting expressions such as `d.comentarios || ''`. -/
def jsOr (v : Option JSVal) (dflt : JSVal) : JSVal :=
  match v with
  | some w => if truthy w then w else dflt
  | none => dflt

example : jsOr none (.str "pendente") = .str "pendente" := rfl
example : jsOr (some (.str "ok")) (.str "pendente") = .str "ok" := rfl
example : truthy (.arr .nil) = true := rfl

/-! ## JSON serialization (model of `JSON.stringify`) -/

/-- One lowercase hexadecimal digit. -/
def hexDig (n : Nat) : Char :=
  if n < 10 then Char.ofNat (48 + n) else Char.ofNat (87 + n)

/-- The decimal digit character for `n < 10`. -/
def digitChar10 (n : Nat) : Char := Char.ofNat (48 + n)

/-- Decimal digits of a natural number, most significant first; the `fuel`
argument only makes the recursion structural and is irrelevant once it
exceeds `n` (`natDigitsAux_congr`). -/
def natDigitsAux : Nat → Nat → List Char
  | 0, _ => []
  | fuel + 1, n =>
    if n < 10 then [digitChar10 n]
    else natDigitsAux fuel (n / 10) ++ [digitChar10 (n % 10)]

/-- Decimal digits of a natural number, most significant first. -/
def natDigits (n : Nat) : List Char := natDigitsAux (n + 1) n

theorem natDigitsAux_congr :
    ∀ f1 f2 n : Nat, n < f1 → n < f2 → natDigitsAux f1 n = natDigitsAux f2 n := by
  intro f1
  induction f1 with
  | zero => intro f2 n h1; omega
  | succ g ih =>
    intro f2 n h1 h2
    cases f2 with
    | zero => omega
    | succ h =>
      by_cases hn : n < 10
      · simp [natDigitsAux, hn]
      · have hpos : 0 < n := by omega
        have hdiv : n / 10 < n := Nat.div_lt_self hpos (by omega)
        simp only [natDigitsAux, hn, if_false]
        rw [ih h (n / 10) (by omega) (by omega)]

/-- The defining recurrence of `natDigits`, with the fuel hidden. -/
theorem natDigits_eq (n : Nat) :
    natDigits n = if n < 10 then [digitChar10 n]
      else natDigits (n / 10) ++ [digitChar10 (n % 10)] := by
  by_cases hn : n < 10
  · simp [natDigits, natDigitsAux, hn]
  · have hpos : 0 < n := by omega
    have hdiv : n / 10 < n := Nat.div_lt_self hpos (by omega)
    rw [if_neg hn]
    show natDigitsAux (n + 1) n = natDigits (n / 10) ++ [digitChar10 (n % 10)]
    simp only [natDigitsAux, hn, if_false]
    rw [natDigits]
    exact congrArg (· ++ [digitChar10 (n % 10)])
      (natDigitsAux_congr n (n / 10 + 1) (n / 10) (by omega) (by omega))

/-- Decimal rendering of an integer, as JavaScript prints integral numbers. -/
def intToDecimal (n : Int) : List Char :=
  if n < 0 then '-' :: natDigits (-n).toNat else natDigits n.toNat

/-- How `JSON.stringify` escapes one character inside a string literal:
quote and backslash get a backslash, the named control characters use their
short escapes, any other control character uses a `\u00XX` escape, and
everything else is emitted verbatim. -/
def escChar (c : Char) : List Char :=
  if c = '"' then ['\\', '"']
  else if c = '\\' then ['\\', '\\']
  else if c = '\x08' then ['\\', 'b']
  else if c = '\x09' then ['\\', 't']
  else if c = '\x0a' then ['\\', 'n']
  else if c = '\x0c' then ['\\', 'f']
  else if c = '\x0d' then ['\\', 'r']
  else if c.toNat < 32 then
    ['\\', 'u', '0', '0', hexDig (c.toNat / 16), hexDig (c.toNat % 16)]
  else [c]

/-- Escape a whole string body (no surrounding quotes). -/
def escString (s : String) : List Char := s.data.flatMap escChar

mutual
/-- `JSON.stringify`, producing the character stream of the JSON text. -/
def stringifyVal : JSVal → List Char
  | .null => "null".data
  | .bool true => "true".data
  | .bool false => "false".data
  | .num n => intToDecimal n
  | .str s => '"' :: (escString s ++ ['"'])
  | .arr es => '[' :: (stringifyItems es ++ [']'])
  | .obj fs => '\x7b' :: (stringifyFields fs ++ ['\x7d'])

/-- Comma-separated array items. -/
def stringifyItems : JSArr → List Char
  | .nil => []
  | .cons v rest => stringifyVal v ++ stringifyItemsTail rest

/-- The remaining array items, each preceded by a comma. -/
def stringifyItemsTail : JSArr → List Char
  | .nil => []
  | .cons v rest => ',' :: (stringifyVal v ++ stringifyItemsTail rest)

/-- Comma-separated `"key":value` object members. -/
def stringifyFields : JSObj → List Char
  | .nil => []
  | .cons k v rest =>
      '"' :: (escString k ++ '"' :: ':' :: (stringifyVal v ++ stringifyFieldsTail rest))

/-- The remaining object members, each preceded by a comma. -/
def stringifyFieldsTail : JSObj → List Char
  | .nil => []
  | .cons k v rest =>
      ',' :: '"' :: (escString k ++ '"' :: ':' :: (stringifyVal v ++ stringifyFieldsTail rest))
end

/-- `JSON.stringify` as a Lean `String`. -/
def jsonStringify (v : JSVal) : String := String.mk (stringifyVal v)

example : jsonStringify (.arr .nil) = "[]" := rfl
example : jsonStringify (.num (-12)) = "-12" := rfl
example :
    jsonStringify (.arr (.cons (.obj (.cons "id" (.num 7) .nil)) .nil)) =
      "[\x7b\"id\":7\x7d]" := rfl

/-! ## JSON parsing (model of `JSON.parse`)

The parser follows the JSON grammar: optional whitespace around tokens,
`null`/`true`/`false`, double-quoted strings with the standard escapes,
arrays, objects, and numbers.  Numeric literals are restricted to the
integer forms (no fraction or exponent part), matching the integer-valued
`JSVal.num`; fractional literals are treated as unparseable and are outside
the model.  The `fuel` argument of the mutual parsers only makes the
recursion structural; `jsonParse` supplies more fuel than any input can
consume. -/

/-- The JSON whitespace characters. -/
def isJsonWs (c : Char) : Bool :=
  c = ' ' || c = '\x09' || c = '\x0a' || c = '\x0d'

/-- Drop leading JSON whitespace. -/
def skipWs : List Char → List Char
  | [] => []
  | c :: cs => if isJsonWs c then skipWs cs else c :: cs

/-- Value of a hexadecimal digit character. -/
def hexDigVal (c : Char) : Option Nat :=
  if 48 ≤ c.toNat ∧ c.toNat ≤ 57 then some (c.toNat - 48)
  else if 97 ≤ c.toNat ∧ c.toNat ≤ 102 then some (c.toNat - 87)
  else if 65 ≤ c.toNat ∧ c.toNat ≤ 70 then some (c.toNat - 55)
  else none

/-- Is `c` a decimal digit? -/
def isDigitCh (c : Char) : Bool := 48 ≤ c.toNat && c.toNat ≤ 57

/-- The character a single-character escape stands for, if it is one of the
escapes JSON admits. -/
def unescChar (c : Char) : Option Char :=
  if c = '"' then some '"'
  else if c = '\\' then some '\\'
  else if c = '/' then some '/'
  else if c = 'b' then some '\x08'
  else if c = 'f' then some '\x0c'
  else if c = 'n' then some '\x0a'
  else if c = 'r' then some '\x0d'
  else if c = 't' then some '\x09'
  else none

/-- Parse the body of a JSON string after its opening quote, returning the
decoded characters and the input after the closing quote.  Unescaped
control characters are rejected, as is a `\u` escape outside the scalar
range. -/
def parseStringBody : List Char → Option (List Char × List Char)
  | [] => none
  | c :: rest =>
    if c = '"' then some ([], rest)
    else if c = '\\' then
      match rest with
      | [] => none
      | e :: rest2 =>
        if e = 'u' then
          match rest2 with
          | h1 :: h2 :: h3 :: h4 :: rest3 =>
            match hexDigVal h1, hexDigVal h2, hexDigVal h3, hexDigVal h4 with
            | some d1, some d2, some d3, some d4 =>
              let n := ((d1 * 16 + d2) * 16 + d3) * 16 + d4
              if n < 55296 then
                match parseStringBody rest3 with
                | some (s, r) => some (Char.ofNat n :: s, r)
                | none => none
              else none
            | _, _, _, _ => none
          | _ => none
        else
          match unescChar e with
          | some u =>
            match parseStringBody rest2 with
            | some (s, r) => some (u :: s, r)
            | none => none
          | none => none
    else if c.toNat < 32 then none
    else
      match parseStringBody rest with
      | some (s, r) => some (c :: s, r)
      | none => none

/-- Consume a maximal run of decimal digits, accumulating their value. -/
def parseDigitsAcc (acc : Nat) : List Char → Nat × List Char
  | [] => (acc, [])
  | c :: cs =>
    if isDigitCh c then parseDigitsAcc (acc * 10 + (c.toNat - 48)) cs
    else (acc, c :: cs)

/-- Parse an unsigned JSON integer literal: `0`, or a nonzero digit followed
by digits (leading zeros are rejected, as in the JSON grammar). -/
def parseNatNumber : List Char → Option (Nat × List Char)
  | [] => none
  | c :: cs =>
    if c = '0' then
      match cs with
      | d :: _ => if isDigitCh d then none else some (0, cs)
      | [] => some (0, [])
    else if isDigitCh c then some (parseDigitsAcc (c.toNat - 48) cs)
    else none

/-- After an integer literal, a fraction or exponent part would make the
literal non-integral; such inputs are outside the integer model and are
rejected. -/
def checkNumTail (n : Int) (r : List Char) : Option (JSVal × List Char) :=
  match r with
  | [] => some (.num n, [])
  | c :: _ => if c = '.' || c = 'e' || c = 'E' then none else some (.num n, r)

/-- Parse a JSON number (integer forms only). -/
def parseNumber : List Char → Option (JSVal × List Char)
  | [] => none
  | c :: cs =>
    if c = '-' then
      match parseNatNumber cs with
      | some (n, r) => checkNumTail (-(n : Int)) r
      | none => none
    else
      match parseNatNumber (c :: cs) with
      | some (n, r) => checkNumTail (n : Int) r
      | none => none

/-- Does the input start with this character? -/
def headIs (cs : List Char) (k : Char) : Bool :=
  match cs with
  | [] => false
  | c :: _ => c = k

/-- Does the input start with this literal sequence? -/
def startsWith (ks cs : List Char) : Bool := ks.isPrefixOf cs

mutual
/-- Parse one JSON value (after optional leading whitespace). -/
def parseVal : Nat → List Char → Option (JSVal × List Char)
  | 0, _ => none
  | fuel + 1, cs =>
    match skipWs cs with
    | [] => none
    | c :: rest =>
      if c = 'n' then
        if startsWith ['u', 'l', 'l'] rest then some (.null, rest.drop 3) else none
      else if c = 't' then
        if startsWith ['r', 'u', 'e'] rest then some (.bool true, rest.drop 3) else none
      else if c = 'f' then
        if startsWith ['a', 'l', 's', 'e'] rest then some (.bool false, rest.drop 4) else none
      else if c = '"' then
        match parseStringBody rest with
        | some (s, r) => some (.str (String.mk s), r)
        | none => none
      else if c = '[' then
        let cs2 := skipWs rest
        if headIs cs2 ']' then some (.arr .nil, cs2.tail)
        else
          match parseItems fuel cs2 with
          | some (es, r) => some (.arr es, r)
          | none => none
      else if c = '\x7b' then
        let cs2 := skipWs rest
        if headIs cs2 '\x7d' then some (.obj .nil, cs2.tail)
        else
          match parseFields fuel cs2 with
          | some (fs, r) => some (.obj fs, r)
          | none => none
      else parseNumber (c :: rest)

/-- Parse the items of a nonempty JSON array, consuming the closing `]`. -/
def parseItems : Nat → List Char → Option (JSArr × List Char)
  | 0, _ => none
  | fuel + 1, cs =>
    match parseVal fuel cs with
    | some (v, r) =>
      let r2 := skipWs r
      if headIs r2 ',' then
        match parseItems fuel r2.tail with
        | some (vs, r3) => some (.cons v vs, r3)
        | none => none
      else if headIs r2 ']' then some (.cons v .nil, r2.tail)
      else none
    | none => none

/-- Parse the members of a nonempty JSON object, consuming the closing
brace. -/
def parseFields : Nat → List Char → Option (JSObj × List Char)
  | 0, _ => none
  | fuel + 1, cs =>
    match skipWs cs with
    | [] => none
    | c :: rest =>
      if c = '"' then
        match parseStringBody rest with
        | some (k, r) =>
          (match skipWs r with
           | [] => none
           | c2 :: r2 =>
             if c2 = ':' then
               match parseVal fuel r2 with
               | some (v, r3) =>
                 let r4 := skipWs r3
                 if headIs r4 ',' then
                   match parseFields fuel r4.tail with
                   | some (fs, r5) => some (.cons (String.mk k) v fs, r5)
                   | none => none
                 else if headIs r4 '\x7d' then some (.cons (String.mk k) v .nil, r4.tail)
                 else none
               | none => none
             else none)
        | none => none
      else none
end

/-- `JSON.parse`: parse a complete JSON text, requiring that nothing but
whitespace follows the value. -/
def jsonParse (s : String) : Option JSVal :=
  match parseVal (s.length + 1) s.data with
  | some (v, rest) => if skipWs rest = [] then some v else none
  | none => none

example : jsonParse "[]" = some (.arr .nil) := rfl
example : jsonParse "null" = some .null := rfl
example : jsonParse " [ 1 , -2 ] " = some (.arr (.cons (.num 1) (.cons (.num (-2)) .nil))) := by decide
example : jsonParse "[\x7b\"id\":7\x7d]" =
    some (.arr (.cons (.obj (.cons "id" (.num 7) .nil)) .nil)) := by decide
example : jsonParse "\"a\\nb\"" = some (.str "a\nb") := by decide
example : jsonParse "[invalid" = none := by decide
example : jsonParse "not json" = none := by decide
example : jsonParse "" = none := rfl

/-! ## Codec correctness: character and digit lemmas -/

theorem char_toNat_ofNat {n : Nat} (h : n < 55296) : (Char.ofNat n).toNat = n := by
  have hv : Nat.isValidChar n := Or.inl (by omega)
  simp [Char.ofNat, Char.toNat, hv, Char.ofNatAux, UInt32.toNat, BitVec.toNat_ofNatLt]

theorem char_eq_iff_toNat {c d : Char} : c = d ↔ c.toNat = d.toNat := by
  constructor
  · intro h; rw [h]
  · intro h
    have hc := Char.ofNat_toNat c
    have hd := Char.ofNat_toNat d
    rw [← hc, ← hd, h]

theorem digitChar10_toNat {n : Nat} (h : n < 10) : (digitChar10 n).toNat = 48 + n :=
  char_toNat_ofNat (by omega)

theorem isDigitCh_digitChar10 {n : Nat} (h : n < 10) : isDigitCh (digitChar10 n) = true := by
  simp [isDigitCh, digitChar10_toNat h]; omega

theorem hexDigVal_hexDig {n : Nat} (h : n < 16) : hexDigVal (hexDig n) = some n := by
  by_cases h10 : n < 10
  · have ht : (hexDig n).toNat = 48 + n := by
      simp only [hexDig, if_pos h10]; exact char_toNat_ofNat (by omega)
    have c1 : 48 ≤ 48 + n ∧ 48 + n ≤ 57 := by omega
    simp [hexDigVal, ht, c1]
  · have ht : (hexDig n).toNat = 87 + n := by
      simp only [hexDig, if_neg h10]; exact char_toNat_ofNat (by omega)
    have c1 : ¬(48 ≤ 87 + n ∧ 87 + n ≤ 57) := by omega
    have c2 : 97 ≤ 87 + n ∧ 87 + n ≤ 102 := by omega
    simp [hexDigVal, ht, c1, c2]

/-! ## Codec correctness: decimal digits -/

theorem natDigits_ne_nil (n : Nat) : natDigits n ≠ [] := by
  rw [natDigits_eq]
  by_cases h : n < 10 <;> simp [h]

theorem natDigits_all_digits (n : Nat) : ∀ c ∈ natDigits n, isDigitCh c = true := by
  induction n using Nat.strong_induction_on with
  | _ n ih =>
    rw [natDigits_eq]
    by_cases h : n < 10
    · simp [h, isDigitCh_digitChar10 h]
    · have hdiv : n / 10 < n := Nat.div_lt_self (by omega) (by omega)
      simp only [h, if_false]
      intro c hc
      rcases List.mem_append.mp hc with hm | hm
      · exact ih (n / 10) hdiv c hm
      · rcases List.mem_singleton.mp hm with rfl
        exact isDigitCh_digitChar10 (Nat.mod_lt _ (by omega))

theorem natDigits_head_ne_zero :
    ∀ n : Nat, 1 ≤ n → ∃ c cs, natDigits n = c :: cs ∧ c ≠ '0' ∧ isDigitCh c = true := by
  intro n
  induction n using Nat.strong_induction_on with
  | _ n ih =>
    intro hn
    rw [natDigits_eq]
    by_cases h : n < 10
    · refine ⟨digitChar10 n, [], by simp [h], ?_, isDigitCh_digitChar10 h⟩
      intro hc
      have h48 := congrArg Char.toNat hc
      rw [digitChar10_toNat h] at h48
      rw [show ('0').toNat = 48 from rfl] at h48
      omega
    · have hdiv : n / 10 < n := Nat.div_lt_self (by omega) (by omega)
      have hdiv1 : 1 ≤ n / 10 := by omega
      obtain ⟨c, cs, heq, hne, hdig⟩ := ih (n / 10) hdiv hdiv1
      exact ⟨c, cs ++ [digitChar10 (n % 10)], by simp [h, heq], hne, hdig⟩

/-- The value step a digit contributes during left-to-right accumulation. -/
def digStep (a : Nat) (c : Char) : Nat := a * 10 + (c.toNat - 48)

theorem natDigits_foldl (n : Nat) :
    ∀ acc, (natDigits n).foldl digStep acc = acc * 10 ^ (natDigits n).length + n := by
  induction n using Nat.strong_induction_on with
  | _ n ih =>
    intro acc
    rw [natDigits_eq]
    by_cases h : n < 10
    · simp [h, digStep, digitChar10_toNat h]
    · have hdiv : n / 10 < n := Nat.div_lt_self (by omega) (by omega)
      simp only [h, if_false, List.foldl_append, List.length_append, List.foldl_cons,
        List.foldl_nil, List.length_cons, List.length_nil]
      rw [ih (n / 10) hdiv acc]
      have hmod : (digitChar10 (n % 10)).toNat = 48 + n % 10 :=
        digitChar10_toNat (Nat.mod_lt _ (by omega))
      simp [digStep, hmod]
      have : (acc * 10 ^ (natDigits (n / 10)).length + n / 10) * 10 =
          acc * 10 ^ ((natDigits (n / 10)).length + 1) + n / 10 * 10 := by ring
      rw [this]
      omega

/-! ## Codec correctness: numbers -/

/-- Heads after which a number literal may safely end: end of input, or a
character that neither extends the digit run nor opens a fraction or
exponent part. -/
def numBoundary : List Char → Bool
  | [] => true
  | c :: _ => !(isDigitCh c || c = '.' || c = 'e' || c = 'E')

theorem parseDigitsAcc_append :
    ∀ (ds : List Char), (∀ c ∈ ds, isDigitCh c = true) →
      ∀ (rest : List Char), (∀ c cs, rest = c :: cs → isDigitCh c = false) →
      ∀ acc, parseDigitsAcc acc (ds ++ rest) = (ds.foldl digStep acc, rest) := by
  intro ds
  induction ds with
  | nil =>
    intro _ rest hrest acc
    cases rest with
    | nil => rfl
    | cons c cs => simp [parseDigitsAcc, hrest c cs rfl]
  | cons d ds ih =>
    intro hds rest hrest acc
    have hd : isDigitCh d = true := hds d (by simp)
    simp only [List.cons_append, parseDigitsAcc, hd, if_true, List.foldl_cons]
    exact ih (fun c hc => hds c (by simp [hc])) rest hrest (acc * 10 + (d.toNat - 48))

theorem numBoundary_head_not_digit {rest : List Char} (h : numBoundary rest = true) :
    ∀ c cs, rest = c :: cs → isDigitCh c = false := by
  intro c cs hr
  subst hr
  simp [numBoundary] at h
  exact h.1.1.1

theorem parseNatNumber_natDigits (n : Nat) (rest : List Char)
    (h : numBoundary rest = true) :
    parseNatNumber (natDigits n ++ rest) = some (n, rest) := by
  by_cases hn : n = 0
  · subst hn
    have h0 : natDigits 0 = ['0'] := rfl
    rw [h0]
    cases rest with
    | nil => rfl
    | cons c cs =>
      have hc : isDigitCh c = false := numBoundary_head_not_digit h c cs rfl
      simp [parseNatNumber, hc]
  · obtain ⟨c, cs, heq, hne, hdig⟩ := natDigits_head_ne_zero n (by omega)
    rw [heq]
    simp only [List.cons_append, parseNatNumber, hne, if_false, hdig, if_true]
    have hall : ∀ x ∈ cs, isDigitCh x = true := by
      intro x hx
      exact natDigits_all_digits n x (by rw [heq]; simp [hx])
    rw [parseDigitsAcc_append cs hall rest (numBoundary_head_not_digit h) (c.toNat - 48)]
    have hfold := natDigits_foldl n 0
    rw [heq, List.foldl_cons] at hfold
    rw [show digStep 0 c = c.toNat - 48 from by simp [digStep]] at hfold
    rw [Nat.zero_mul, Nat.zero_add] at hfold
    rw [hfold]

theorem checkNumTail_boundary (n : Int) (rest : List Char)
    (h : numBoundary rest = true) : checkNumTail n rest = some (.num n, rest) := by
  cases rest with
  | nil => rfl
  | cons c cs =>
    simp [numBoundary] at h
    simp [checkNumTail, h.1.1.2, h.1.2, h.2]

theorem parseNumber_intToDecimal (n : Int) (rest : List Char)
    (h : numBoundary rest = true) :
    parseNumber (intToDecimal n ++ rest) = some (.num n, rest) := by
  by_cases hneg : n < 0
  · have hpos : 1 ≤ (-n).toNat := by omega
    simp only [intToDecimal, if_pos hneg, List.cons_append]
    simp only [parseNumber, if_pos rfl]
    rw [parseNatNumber_natDigits (-n).toNat rest h]
    show checkNumTail (-(((-n).toNat : Nat) : Int)) rest = some (JSVal.num n, rest)
    have hcast : -((((-n).toNat : Nat)) : Int) = n := by omega
    rw [hcast]
    exact checkNumTail_boundary _ rest h
  · simp only [intToDecimal, if_neg hneg]
    obtain ⟨c, cs, heq⟩ : ∃ c cs, natDigits n.toNat = c :: cs := by
      cases hnd : natDigits n.toNat with
      | nil => exact absurd hnd (natDigits_ne_nil _)
      | cons c cs => exact ⟨c, cs, rfl⟩
    have hdig : isDigitCh c = true := natDigits_all_digits n.toNat c (by rw [heq]; simp)
    have hcm : c ≠ '-' := by
      intro hc
      have h45 := char_eq_iff_toNat.mp hc
      rw [show ('-').toNat = 45 from rfl] at h45
      simp [isDigitCh] at hdig
      omega
    rw [heq]
    simp only [List.cons_append, parseNumber, hcm, if_false]
    rw [show c :: (cs ++ rest) = (c :: cs) ++ rest from rfl, ← heq]
    rw [parseNatNumber_natDigits n.toNat rest h]
    show checkNumTail ((n.toNat : Nat) : Int) rest = some (JSVal.num n, rest)
    have hcast : (((n.toNat : Nat)) : Int) = n := by omega
    rw [hcast]
    exact checkNumTail_boundary _ rest h

/-! ## Codec correctness: strings -/

theorem parseStringBody_esc :
    ∀ (l : List Char) (rest : List Char),
      parseStringBody (l.flatMap escChar ++ '"' :: rest) = some (l, rest) := by
  intro l
  induction l with
  | nil =>
    intro rest
    simp only [List.flatMap_nil, List.nil_append]
    unfold parseStringBody
    simp
  | cons c tl ih =>
    intro rest
    have hx : (c :: tl).flatMap escChar ++ '"' :: rest =
        escChar c ++ (tl.flatMap escChar ++ '"' :: rest) := by
      simp [List.flatMap_cons, List.append_assoc]
    rw [hx]
    by_cases h1 : c = '"'
    · subst h1
      simp only [escChar, if_pos rfl, List.cons_append, List.nil_append]
      unfold parseStringBody
      simp +decide [unescChar, ih]
    · by_cases h2 : c = '\\'
      · subst h2
        simp +decide only [escChar, List.cons_append, List.nil_append]
        unfold parseStringBody
        simp +decide [unescChar, ih]
      · by_cases h3 : c = '\x08'
        · subst h3
          simp +decide only [escChar, List.cons_append, List.nil_append]
          unfold parseStringBody
          simp +decide [unescChar, ih]
        · by_cases h4 : c = '\x09'
          · subst h4
            simp +decide only [escChar, List.cons_append, List.nil_append]
            unfold parseStringBody
            simp +decide [unescChar, ih]
          · by_cases h5 : c = '\x0a'
            · subst h5
              simp +decide only [escChar, List.cons_append, List.nil_append]
              unfold parseStringBody
              simp +decide [unescChar, ih]
            · by_cases h6 : c = '\x0c'
              · subst h6
                simp +decide only [escChar, List.cons_append, List.nil_append]
                unfold parseStringBody
                simp +decide [unescChar, ih]
              · by_cases h7 : c = '\x0d'
                · subst h7
                  simp +decide only [escChar, List.cons_append, List.nil_append]
                  unfold parseStringBody
                  simp +decide [unescChar, ih]
                · by_cases h8 : c.toNat < 32
                  · have ha : c.toNat / 16 < 16 := by omega
                    have hbm : c.toNat % 16 < 16 := Nat.mod_lt _ (by omega)
                    simp only [escChar, h1, h2, h3, h4, h5, h6, h7, if_false,
                      ite_false, if_pos h8, ite_true, List.cons_append, List.nil_append]
                    unfold parseStringBody
                    simp +decide [hexDigVal_hexDig ha, hexDigVal_hexDig hbm,
                      show hexDigVal ('0') = some 0 from rfl]
                    have hn16 : c.toNat / 16 * 16 + c.toNat % 16 = c.toNat := by omega
                    rw [hn16]
                    have hlt : c.toNat < 55296 := by omega
                    simp [hlt, ih, Char.ofNat_toNat]
                  · simp only [escChar, h1, h2, h3, h4, h5, h6, h7, h8, if_false,
                      ite_false, List.cons_append, List.nil_append]
                    unfold parseStringBody
                    simp [h1, h2, h8, ih]

/-! ## Codec correctness: leading characters of serialized values -/

theorem digit_toNat {c : Char} (h : isDigitCh c = true) : 48 ≤ c.toNat ∧ c.toNat ≤ 57 := by
  simpa [isDigitCh] using h

theorem digit_ne {c k : Char} (h : isDigitCh c = true)
    (hk : k.toNat < 48 ∨ 57 < k.toNat) : c ≠ k := by
  intro hc
  have he := char_eq_iff_toNat.mp hc
  have hd := digit_toNat h
  omega

/-- The characters a serialized JSON value can start with. -/
def jsonStartChar (c : Char) : Prop :=
  c = 'n' ∨ c = 't' ∨ c = 'f' ∨ c = '"' ∨ c = '[' ∨ c = '\x7b' ∨ c = '-' ∨
    isDigitCh c = true

theorem intToDecimal_head (n : Int) :
    ∃ c cs, intToDecimal n = c :: cs ∧ (c = '-' ∨ isDigitCh c = true) := by
  by_cases hn : n < 0
  · exact ⟨'-', natDigits (-n).toNat, by simp [intToDecimal, hn], Or.inl rfl⟩
  · obtain ⟨c, cs, heq⟩ : ∃ c cs, natDigits n.toNat = c :: cs := by
      cases hnd : natDigits n.toNat with
      | nil => exact absurd hnd (natDigits_ne_nil _)
      | cons c cs => exact ⟨c, cs, rfl⟩
    refine ⟨c, cs, by simp [intToDecimal, hn, heq], Or.inr ?_⟩
    exact natDigits_all_digits n.toNat c (by rw [heq]; simp)

theorem stringifyVal_head (v : JSVal) :
    ∃ c cs, stringifyVal v = c :: cs ∧ jsonStartChar c := by
  cases v with
  | null => exact ⟨'n', _, rfl, Or.inl rfl⟩
  | bool b =>
    cases b with
    | true => exact ⟨'t', _, rfl, Or.inr (Or.inl rfl)⟩
    | false => exact ⟨'f', _, rfl, Or.inr (Or.inr (Or.inl rfl))⟩
  | num n =>
    obtain ⟨c, cs, heq, hp⟩ := intToDecimal_head n
    refine ⟨c, cs, by simp [stringifyVal, heq], ?_⟩
    rcases hp with h | h
    · exact Or.inr (Or.inr (Or.inr (Or.inr (Or.inr (Or.inr (Or.inl h))))))
    · exact Or.inr (Or.inr (Or.inr (Or.inr (Or.inr (Or.inr (Or.inr h))))))
  | str s => exact ⟨'"', _, rfl, Or.inr (Or.inr (Or.inr (Or.inl rfl)))⟩
  | arr es => exact ⟨'[', _, rfl, Or.inr (Or.inr (Or.inr (Or.inr (Or.inl rfl))))⟩
  | obj fs =>
    exact ⟨'\x7b', _, rfl, Or.inr (Or.inr (Or.inr (Or.inr (Or.inr (Or.inl rfl)))))⟩

theorem jsonStart_not_ws {c : Char} (h : jsonStartChar c) : isJsonWs c = false := by
  rcases h with rfl | rfl | rfl | rfl | rfl | rfl | rfl | h
  · decide
  · decide
  · decide
  · decide
  · decide
  · decide
  · decide
  · have h1 : c ≠ ' ' := digit_ne h (by decide)
    have h2 : c ≠ '\x09' := digit_ne h (by decide)
    have h3 : c ≠ '\x0a' := digit_ne h (by decide)
    have h4 : c ≠ '\x0d' := digit_ne h (by decide)
    simp [isJsonWs, h1, h2, h3, h4]

theorem skipWs_cons_of {c : Char} {cs : List Char} (h : isJsonWs c = false) :
    skipWs (c :: cs) = c :: cs := by
  simp [skipWs, h]

theorem skipWs_stringifyVal (v : JSVal) (r : List Char) :
    skipWs (stringifyVal v ++ r) = stringifyVal v ++ r := by
  obtain ⟨c, cs, he, hp⟩ := stringifyVal_head v
  rw [he, List.cons_append]
  exact skipWs_cons_of (jsonStart_not_ws hp)

theorem jsonStart_ne_delim {c : Char} (h : jsonStartChar c) :
    c ≠ ']' ∧ c ≠ '\x7d' ∧ c ≠ ',' := by
  rcases h with rfl | rfl | rfl | rfl | rfl | rfl | rfl | h
  · exact ⟨by decide, by decide, by decide⟩
  · exact ⟨by decide, by decide, by decide⟩
  · exact ⟨by decide, by decide, by decide⟩
  · exact ⟨by decide, by decide, by decide⟩
  · exact ⟨by decide, by decide, by decide⟩
  · exact ⟨by decide, by decide, by decide⟩
  · exact ⟨by decide, by decide, by decide⟩
  · exact ⟨digit_ne h (by decide), digit_ne h (by decide), digit_ne h (by decide)⟩

theorem headIs_stringifyVal_rb (v : JSVal) (r : List Char) :
    headIs (stringifyVal v ++ r) (']') = false := by
  obtain ⟨c, cs, he, hp⟩ := stringifyVal_head v
  rw [he, List.cons_append]
  simp [headIs, (jsonStart_ne_delim hp).1]

theorem headIs_stringifyVal_cb (v : JSVal) (r : List Char) :
    headIs (stringifyVal v ++ r) ('\x7d') = false := by
  obtain ⟨c, cs, he, hp⟩ := stringifyVal_head v
  rw [he, List.cons_append]
  simp [headIs, (jsonStart_ne_delim hp).2.1]

/-! ## Codec correctness: the round trip -/

mutual
/-- Fuel sufficient for `parseVal` to parse this value. -/
def needVal : JSVal → Nat
  | .null => 1
  | .bool _ => 1
  | .num _ => 1
  | .str _ => 1
  | .arr es => needItems es + 1
  | .obj fs => needFields fs + 1

/-- Fuel sufficient for `parseItems` to parse these items. -/
def needItems : JSArr → Nat
  | .nil => 1
  | .cons v rest => max (needVal v) (needItems rest) + 1

/-- Fuel sufficient for `parseFields` to parse these members. -/
def needFields : JSObj → Nat
  | .nil => 1
  | .cons _ v rest => max (needVal v) (needFields rest) + 1
end

/-- One unfolding step of `parseVal` on a non-whitespace head character. -/
theorem parseVal_step (f : Nat) (c : Char) (x : List Char) (h : isJsonWs c = false) :
    parseVal (f + 1) (c :: x) =
      (if c = 'n' then
        if startsWith ['u', 'l', 'l'] x then some (.null, x.drop 3) else none
      else if c = 't' then
        if startsWith ['r', 'u', 'e'] x then some (.bool true, x.drop 3) else none
      else if c = 'f' then
        if startsWith ['a', 'l', 's', 'e'] x then some (.bool false, x.drop 4) else none
      else if c = '"' then
        match parseStringBody x with
        | some (s, r) => some (.str (String.mk s), r)
        | none => none
      else if c = '[' then
        let cs2 := skipWs x
        if headIs cs2 (']') then some (.arr .nil, cs2.tail)
        else
          match parseItems f cs2 with
          | some (es, r) => some (.arr es, r)
          | none => none
      else if c = '\x7b' then
        let cs2 := skipWs x
        if headIs cs2 ('\x7d') then some (.obj .nil, cs2.tail)
        else
          match parseFields f cs2 with
          | some (fs, r) => some (.obj fs, r)
          | none => none
      else parseNumber (c :: x)) := by
  unfold parseVal
  rw [skipWs_cons_of h]

mutual
/-- Parsing a serialized value consumes exactly its text, leaving any suffix
whose head cannot extend a trailing number literal. -/
theorem parseVal_print : ∀ (v : JSVal) (fuel : Nat) (rest : List Char),
    needVal v ≤ fuel → numBoundary rest = true →
    parseVal fuel (stringifyVal v ++ rest) = some (v, rest)
  | v, fuel, rest, hf, hb => by
    cases fuel with
    | zero => exact absurd hf (by cases v <;> simp [needVal])
    | succ f =>
      cases v with
      | null =>
        show parseVal (f + 1) ('n' :: ('u' :: 'l' :: 'l' :: rest)) = some (.null, rest)
        rw [parseVal_step f ('n') _ (by decide)]
        simp +decide [startsWith, List.isPrefixOf]
      | bool b =>
        cases b with
        | true =>
          show parseVal (f + 1) ('t' :: ('r' :: 'u' :: 'e' :: rest)) = some (.bool true, rest)
          rw [parseVal_step f ('t') _ (by decide)]
          simp +decide [startsWith, List.isPrefixOf]
        | false =>
          show parseVal (f + 1) ('f' :: ('a' :: 'l' :: 's' :: 'e' :: rest)) =
            some (.bool false, rest)
          rw [parseVal_step f ('f') _ (by decide)]
          simp +decide [startsWith, List.isPrefixOf]
      | num n =>
        obtain ⟨c, cs, he, hp⟩ := intToDecimal_head n
        have hws : isJsonWs c = false := by
          rcases hp with rfl | h
          · decide
          · have h1 : c ≠ ' ' := digit_ne h (by decide)
            have h2 : c ≠ '\x09' := digit_ne h (by decide)
            have h3 : c ≠ '\x0a' := digit_ne h (by decide)
            have h4 : c ≠ '\x0d' := digit_ne h (by decide)
            simp [isJsonWs, h1, h2, h3, h4]
        have hcn : c ≠ 'n' := by
          rcases hp with rfl | h
          · decide
          · exact digit_ne h (by decide)
        have hct : c ≠ 't' := by
          rcases hp with rfl | h
          · decide
          · exact digit_ne h (by decide)
        have hcf : c ≠ 'f' := by
          rcases hp with rfl | h
          · decide
          · exact digit_ne h (by decide)
        have hcq : c ≠ '"' := by
          rcases hp with rfl | h
          · decide
          · exact digit_ne h (by decide)
        have hcl : c ≠ '[' := by
          rcases hp with rfl | h
          · decide
          · exact digit_ne h (by decide)
        have hco : c ≠ '\x7b' := by
          rcases hp with rfl | h
          · decide
          · exact digit_ne h (by decide)
        show parseVal (f + 1) (intToDecimal n ++ rest) = some (.num n, rest)
        rw [he, List.cons_append, parseVal_step f c (cs ++ rest) hws]
        simp only [hcn, hct, hcf, hcq, hcl, hco, if_false, ite_false]
        rw [← List.cons_append, ← he]
        exact parseNumber_intToDecimal n rest hb
      | str s =>
        show parseVal (f + 1) ('"' :: ((escString s ++ ['"']) ++ rest)) = some (.str s, rest)
        rw [parseVal_step f ('"') _ (by decide)]
        have hx : (escString s ++ ['"']) ++ rest = s.data.flatMap escChar ++ '"' :: rest := by
          simp [escString, List.append_assoc]
        rw [hx, parseStringBody_esc]
        rfl
      | arr es =>
        cases es with
        | nil =>
          show parseVal (f + 1) ('[' :: (']' :: rest)) = some (.arr .nil, rest)
          rw [parseVal_step f ('[') _ (by decide)]
          rw [skipWs_cons_of (show isJsonWs (']') = false by decide)]
          rfl
        | cons v tl =>
          show parseVal (f + 1)
              ('[' :: ((stringifyItems (.cons v tl) ++ [']']) ++ rest)) =
            some (.arr (.cons v tl), rest)
          rw [parseVal_step f ('[') _ (by decide)]
          have hx : (stringifyItems (.cons v tl) ++ [']']) ++ rest =
              stringifyVal v ++ (stringifyItemsTail tl ++ (']' :: rest)) := by
            simp [stringifyItems, List.append_assoc]
          rw [hx]
          simp +decide only [skipWs_stringifyVal, headIs_stringifyVal_rb, if_false,
            ite_false, if_true, ite_true]
          have hneed : needItems (.cons v tl) ≤ f := by
            simp only [needVal] at hf
            omega
          rw [parseItems_print v tl f rest hneed]
      | obj fs =>
        cases fs with
        | nil =>
          show parseVal (f + 1) ('\x7b' :: ('\x7d' :: rest)) = some (.obj .nil, rest)
          rw [parseVal_step f ('\x7b') _ (by decide)]
          rw [skipWs_cons_of (show isJsonWs ('\x7d') = false by decide)]
          rfl
        | cons k v tl =>
          show parseVal (f + 1)
              ('\x7b' :: ((stringifyFields (.cons k v tl) ++ ['\x7d']) ++ rest)) =
            some (.obj (.cons k v tl), rest)
          rw [parseVal_step f ('\x7b') _ (by decide)]
          have hx : (stringifyFields (.cons k v tl) ++ ['\x7d']) ++ rest =
              '"' :: (escString k ++ '"' :: ':' ::
                (stringifyVal v ++ (stringifyFieldsTail tl ++ ('\x7d' :: rest)))) := by
            simp [stringifyFields, List.append_assoc]
          rw [hx]
          have hneed : needFields (.cons k v tl) ≤ f := by
            simp only [needVal] at hf
            omega
          have hsk : skipWs ('"' :: (escString k ++ '"' :: ':' ::
              (stringifyVal v ++ (stringifyFieldsTail tl ++ ('\x7d' :: rest))))) =
              '"' :: (escString k ++ '"' :: ':' ::
              (stringifyVal v ++ (stringifyFieldsTail tl ++ ('\x7d' :: rest)))) :=
            skipWs_cons_of (by decide)
          simp +decide only [hsk, headIs, if_false, ite_false, if_true, ite_true]
          rw [parseFields_print k v tl f rest hneed]

termination_by v _ _ _ _ => sizeOf v

/-- Parsing the serialized items of a nonempty array consumes them together
with the closing bracket. -/
theorem parseItems_print : ∀ (v : JSVal) (tl : JSArr) (fuel : Nat) (rest : List Char),
    needItems (.cons v tl) ≤ fuel →
    parseItems fuel (stringifyVal v ++ (stringifyItemsTail tl ++ (']' :: rest))) =
      some (.cons v tl, rest)
  | v, tl, fuel, rest, hf => by
    cases fuel with
    | zero => exact absurd hf (by simp [needItems])
    | succ f =>
      have hv : needVal v ≤ f := by
        simp only [needItems] at hf
        omega
      have hX : numBoundary (stringifyItemsTail tl ++ (']' :: rest)) = true := by
        cases tl <;> simp +decide [stringifyItemsTail, numBoundary, isDigitCh]
      unfold parseItems
      rw [parseVal_print v f _ hv hX]
      cases tl with
      | nil => rfl
      | cons v2 tl2 =>
        have h2 : needItems (.cons v2 tl2) ≤ f := by
          simp only [needItems] at hf ⊢
          omega
        show (match parseItems f
            ((stringifyVal v2 ++ stringifyItemsTail tl2) ++ (']' :: rest)) with
          | some (vs, r3) => some (JSArr.cons v vs, r3)
          | none => none) = some (.cons v (.cons v2 tl2), rest)
        rw [List.append_assoc, parseItems_print v2 tl2 f rest h2]

termination_by v tl _ _ _ => sizeOf (JSArr.cons v tl)

/-- Parsing the serialized members of a nonempty object consumes them
together with the closing brace. -/
theorem parseFields_print : ∀ (k : String) (v : JSVal) (tl : JSObj) (fuel : Nat)
    (rest : List Char), needFields (.cons k v tl) ≤ fuel →
    parseFields fuel ('"' :: (escString k ++ '"' :: ':' ::
      (stringifyVal v ++ (stringifyFieldsTail tl ++ ('\x7d' :: rest))))) =
      some (.cons k v tl, rest)
  | k, v, tl, fuel, rest, hf => by
    cases fuel with
    | zero => exact absurd hf (by simp [needFields])
    | succ f =>
      have hv : needVal v ≤ f := by
        simp only [needFields] at hf
        omega
      have hX : numBoundary (stringifyFieldsTail tl ++ ('\x7d' :: rest)) = true := by
        cases tl <;> simp +decide [stringifyFieldsTail, numBoundary, isDigitCh]
      unfold parseFields
      rw [skipWs_cons_of (show isJsonWs ('"') = false by decide)]
      show (match parseStringBody (escString k ++ '"' :: ':' ::
          (stringifyVal v ++ (stringifyFieldsTail tl ++ ('\x7d' :: rest)))) with
        | some (s, r) =>
          (match skipWs r with
           | [] => none
           | c2 :: r2 =>
             if c2 = ':' then
               match parseVal f r2 with
               | some (w, r3) =>
                 let r4 := skipWs r3
                 if headIs r4 (',') then
                   match parseFields f r4.tail with
                   | some (fs, r5) => some (JSObj.cons (String.mk s) w fs, r5)
                   | none => none
                 else if headIs r4 ('\x7d') then
                   some (JSObj.cons (String.mk s) w .nil, r4.tail)
                 else none
               | none => none
             else none)
        | none => none) = some (.cons k v tl, rest)
      rw [show escString k = k.data.flatMap escChar from rfl, parseStringBody_esc]
      show (match parseVal f
          (stringifyVal v ++ (stringifyFieldsTail tl ++ ('\x7d' :: rest))) with
        | some (w, r3) =>
          let r4 := skipWs r3
          if headIs r4 (',') then
            match parseFields f r4.tail with
            | some (fs, r5) => some (JSObj.cons (String.mk k.data) w fs, r5)
            | none => none
          else if headIs r4 ('\x7d') then
            some (JSObj.cons (String.mk k.data) w .nil, r4.tail)
          else none
        | none => none) = some (.cons k v tl, rest)
      rw [parseVal_print v f _ hv hX]
      cases tl with
      | nil => rfl
      | cons k2 v2 tl2 =>
        have h2 : needFields (.cons k2 v2 tl2) ≤ f := by
          simp only [needFields] at hf ⊢
          omega
        show (match parseFields f
            ('"' :: ((escString k2 ++ '"' :: ':' ::
              (stringifyVal v2 ++ stringifyFieldsTail tl2)) ++ ('\x7d' :: rest))) with
          | some (fs, r5) => some (JSObj.cons (String.mk k.data) v fs, r5)
          | none => none) = some (.cons k v (.cons k2 v2 tl2), rest)
        have hx2 : ('"' :: ((escString k2 ++ '"' :: ':' ::
            (stringifyVal v2 ++ stringifyFieldsTail tl2)) ++ ('\x7d' :: rest))) =
            '"' :: (escString k2 ++ '"' :: ':' ::
              (stringifyVal v2 ++ (stringifyFieldsTail tl2 ++ ('\x7d' :: rest)))) := by
          simp [List.append_assoc]
        rw [hx2, parseFields_print k2 v2 tl2 f rest h2]
termination_by k v tl _ _ _ => sizeOf (JSObj.cons k v tl)
end

theorem stringifyVal_length_pos (v : JSVal) : 1 ≤ (stringifyVal v).length := by
  obtain ⟨c, cs, he, _⟩ := stringifyVal_head v
  rw [he]
  simp

mutual
/-- The fuel a value needs is covered by the length of its serialization. -/
theorem needVal_le_length : ∀ v : JSVal, needVal v ≤ (stringifyVal v).length + 1
  | .null => by simp [needVal, stringifyVal]
  | .bool b => by cases b <;> simp [needVal, stringifyVal]
  | .num n => by simp [needVal]
  | .str s => by simp [needVal]
  | .arr .nil => by simp [needVal, needItems, stringifyVal, stringifyItems]
  | .arr (.cons v tl) => by
    have hv := needVal_le_length v
    have htl := needItemsTail_le tl
    have hp := stringifyVal_length_pos v
    simp only [needVal, needItems, stringifyVal, stringifyItems, List.length_cons,
      List.length_append] at *
    omega
  | .obj .nil => by simp [needVal, needFields, stringifyVal, stringifyFields]
  | .obj (.cons k v tl) => by
    have hv := needVal_le_length v
    have htl := needFieldsTail_le tl
    have hp := stringifyVal_length_pos v
    simp only [needVal, needFields, stringifyVal, stringifyFields, List.length_cons,
      List.length_append] at *
    omega

/-- The fuel remaining items need is covered by their serialized tail. -/
theorem needItemsTail_le : ∀ es : JSArr, needItems es ≤ (stringifyItemsTail es).length + 2
  | .nil => by simp [needItems, stringifyItemsTail]
  | .cons v tl => by
    have hv := needVal_le_length v
    have htl := needItemsTail_le tl
    simp only [needItems, stringifyItemsTail, List.length_cons, List.length_append] at *
    omega

/-- The fuel remaining members need is covered by their serialized tail. -/
theorem needFieldsTail_le : ∀ fs : JSObj, needFields fs ≤ (stringifyFieldsTail fs).length + 2
  | .nil => by simp [needFields, stringifyFieldsTail]
  | .cons k v tl => by
    have hv := needVal_le_length v
    have htl := needFieldsTail_le tl
    simp only [needFields, stringifyFieldsTail, List.length_cons, List.length_append] at *
    omega
end

/-- The round trip: parsing a stringified value recovers it exactly. -/
theorem jsonParse_jsonStringify (v : JSVal) : jsonParse (jsonStringify v) = some v := by
  unfold jsonParse
  have h := parseVal_print v ((stringifyVal v).length + 1) []
    (needVal_le_length v) rfl
  rw [List.append_nil] at h
  rw [show (jsonStringify v).data = stringifyVal v from rfl]
  rw [show (jsonStringify v).length = (stringifyVal v).length from rfl]
  rw [h]
  rfl

/-! ## SQLite storage model

`SVal` models the dynamically-typed cell values the service actually
produces: `NULL`, integers, and text.  (The service never binds reals or
blobs: every bound parameter is a request-body scalar, a JSON-encoded text,
`null`, or a 0/1 flag.) -/

/-- A stored SQLite cell value. -/
inductive SVal : Type where
  | null : SVal
  | int (n : Int) : SVal
  | text (s : String) : SVal
  deriving DecidableEq, Repr

/-- How the driver binds a JavaScript value (possibly absent, i.e.
`undefined`) as a SQL parameter: `undefined`/`null` bind as `NULL`, numbers
as integers, strings as text, booleans as 0/1.  (Structured values are not
bindable; the service always stringifies its two list fields before
binding, so the case is unreachable on the routes modelled here and is
mapped to `NULL`.) -/
def bindVal : Option JSVal → SVal
  | none => .null
  | some .null => .null
  | some (.num n) => .int n
  | some (.str s) => .text s
  | some (.bool b) => .int (if b then 1 else 0)
  | some (.arr _) => .null
  | some (.obj _) => .null

/-- One row of the `demandas` table (see the `CREATE TABLE` statement):
`id INTEGER PRIMARY KEY AUTOINCREMENT` plus 18 typed-by-affinity columns,
each of which can hold any dynamically-typed cell value.  The `local`
column is named `localField` because `local` is reserved in Lean. -/
structure StoredRow : Type where
  id : Int
  funcionarioId : SVal
  nomeFuncionario : SVal
  emailFuncionario : SVal
  categoria : SVal
  prioridade : SVal
  complexidade : SVal
  descricao : SVal
  localField : SVal
  dataCriacao : SVal
  dataLimite : SVal
  status : SVal
  isRotina : SVal
  diasSemana : SVal
  tag : SVal
  comentarios : SVal
  comentarioGestor : SVal
  dataConclusao : SVal
  atribuidos : SVal
  deriving DecidableEq, Repr

/-- A parsed JSON request body for the demanda routes: the fields the
handlers read, each possibly absent.  `d.id` is included because the update
handler's response spreads the whole body after the `id` key. -/
structure Req : Type where
  id : Option JSVal := none
  funcionarioId : Option JSVal := none
  nomeFuncionario : Option JSVal := none
  emailFuncionario : Option JSVal := none
  categoria : Option JSVal := none
  prioridade : Option JSVal := none
  complexidade : Option JSVal := none
  descricao : Option JSVal := none
  localField : Option JSVal := none
  dataCriacao : Option JSVal := none
  dataLimite : Option JSVal := none
  status : Option JSVal := none
  isRotina : Option JSVal := none
  diasSemana : Option JSVal := none
  tag : Option JSVal := none
  comentarios : Option JSVal := none
  comentarioGestor : Option JSVal := none
  dataConclusao : Option JSVal := none
  atribuidos : Option JSVal := none
  deriving DecidableEq, Repr

/-- The ternary `d.x ? JSON.stringify(d.x) : null` used for the two
list-valued fields on create and update. -/
def encodeListField (v : Option JSVal) : SVal :=
  if truthyOpt v then
    match v with
    | some w => .text (jsonStringify w)
    | none => .null
  else .null

/-! ## JavaScript string-to-number coercion (model of `isNaN(id)` / `Number(id)`)

`isNaN(id)` on a string coerces via `Number(id)`: the string is trimmed,
the empty remainder means 0, and otherwise it must be a numeric literal —
an optionally signed decimal (with optional fraction and exponent),
`Infinity`, or an unsigned `0x`/`0o`/`0b` radix literal. -/

/-- JavaScript whitespace accepted by `Number(string)` trimming (the common
characters; exotic Unicode spaces behave alike and are not distinguished by
any claim). -/
def isJsSpace (c : Char) : Bool :=
  c = ' ' || c = '\x09' || c = '\x0a' || c = '\x0d' || c = '\x0b' || c = '\x0c' ||
    c = '\xa0' || c.toNat = 65279

/-- Trim leading and trailing JavaScript whitespace. -/
def jsTrim (s : String) : List Char :=
  ((s.data.dropWhile isJsSpace).reverse.dropWhile isJsSpace).reverse

/-- Drop a leading run of decimal digits. -/
def dropDigits (cs : List Char) : List Char := cs.dropWhile isDigitCh

/-- Does the input start with a decimal digit? -/
def headDigit : List Char → Bool
  | [] => false
  | c :: _ => isDigitCh c

/-- An optional exponent part closing the literal: empty, or `e`/`E`, an
optional sign, and one or more digits. -/
def expClose : List Char → Bool
  | [] => true
  | c :: rest =>
    if c = 'e' || c = 'E' then
      match rest with
      | [] => false
      | c2 :: r2 =>
        if c2 = '+' || c2 = '-' then headDigit r2 && decide (dropDigits r2 = [])
        else headDigit (c2 :: r2) && decide (dropDigits (c2 :: r2) = [])
    else false

/-- What may follow the integer digit run of a decimal literal: nothing, a
fraction part, or an exponent part. -/
def afterIntPart : List Char → Bool
  | [] => true
  | c :: r2 => if c = '.' then expClose (dropDigits r2) else expClose (c :: r2)

/-- An unsigned decimal literal: `digits [. digits] [exp]` or `. digits [exp]`. -/
def decLit : List Char → Bool
  | [] => false
  | c :: rest =>
    if c = '.' then headDigit rest && expClose (dropDigits rest)
    else headDigit (c :: rest) && afterIntPart (dropDigits (c :: rest))

/-- A digit of the given radix. -/
def isRadixDigit (radix : Nat) (c : Char) : Bool :=
  if radix = 16 then (hexDigVal c).isSome
  else if radix = 8 then 48 ≤ c.toNat && c.toNat ≤ 55
  else 48 ≤ c.toNat && c.toNat ≤ 49

/-- An unsigned `0x`/`0o`/`0b` radix literal (signs are not admitted). -/
def radixLit : List Char → Bool
  | c0 :: p :: rest =>
    if c0 = '0' then
      if p = 'x' || p = 'X' then !rest.isEmpty && rest.all (isRadixDigit 16)
      else if p = 'o' || p = 'O' then !rest.isEmpty && rest.all (isRadixDigit 8)
      else if p = 'b' || p = 'B' then !rest.isEmpty && rest.all (isRadixDigit 2)
      else false
    else false
  | _ => false

/-- `Infinity` or an unsigned decimal literal. -/
def decOrInf (cs : List Char) : Bool :=
  cs = ['I', 'n', 'f', 'i', 'n', 'i', 't', 'y'] || decLit cs

/-- The whole (trimmed) string is a `StringNumericLiteral`. -/
def jsNumericBody : List Char → Bool
  | [] => true
  | c :: rest =>
    if c = '+' then decOrInf rest
    else if c = '-' then decOrInf rest
    else radixLit (c :: rest) || decOrInf (c :: rest)

/-- `isNaN(s)` for a string `s`. -/
def jsIsNaNStr (s : String) : Bool := !(jsNumericBody (jsTrim s))

example : jsIsNaNStr "abc" = true := by decide
example : jsIsNaNStr "12" = false := by decide
example : jsIsNaNStr "-3" = false := by decide
example : jsIsNaNStr "2.5" = false := by decide
example : jsIsNaNStr "0x1f" = false := by decide
example : jsIsNaNStr "Infinity" = false := by decide
example : jsIsNaNStr " 7 " = false := by decide
example : jsIsNaNStr "" = false := by decide
example : jsIsNaNStr "7a" = true := by decide

/-- The value of a run of decimal digits. -/
def digitsVal (cs : List Char) : Nat := cs.foldl digStep 0

/-- `Number(s)` restricted to the integer decimal forms (the only forms the
claims instantiate); other numeric strings (fractions, radix literals,
`Infinity`) have no integer value and yield `none`. -/
def jsIntOfString (s : String) : Option Int :=
  match jsTrim s with
  | [] => some 0
  | c :: rest =>
    if c = '+' then
      if rest ≠ [] && rest.all isDigitCh then some (digitsVal rest) else none
    else if c = '-' then
      if rest ≠ [] && rest.all isDigitCh then some (-(digitsVal rest : Int)) else none
    else if (c :: rest).all isDigitCh then some (digitsVal (c :: rest)) else none

example : jsIntOfString "7" = some 7 := by decide
example : jsIntOfString "-12" = some (-12) := by decide
example : jsIntOfString "abc" = none := by decide

/-- `Number(s)` as a JavaScript value, for strings already known numeric;
non-integer numerics fall outside the integer model and are mapped to
`null`. -/
def jsNumberVal (s : String) : JSVal :=
  match jsIntOfString s with
  | some n => .num n
  | none => .null

/-! ## SQLite comparison and `LIKE` -/

/-- Lower-case an ASCII letter (SQLite's default `LIKE` folds ASCII only). -/
def asciiLower (c : Char) : Char :=
  if 65 ≤ c.toNat ∧ c.toNat ≤ 90 then Char.ofNat (c.toNat + 32) else c

/-- Plain (case-sensitive) substring containment. -/
def containsSubstr (pat s : List Char) : Bool :=
  s.tails.any (fun t => pat.isPrefixOf t)

/-- Exact substring containment on strings. -/
def containsExact (pat s : String) : Bool := containsSubstr pat.data s.data

/-- ASCII-case-insensitive substring containment, the semantics of
SQLite's default `LIKE` for a `%pat%` pattern containing no wildcard
metacharacters. -/
def likeContains (pat s : String) : Bool :=
  containsSubstr (pat.data.map asciiLower) (s.data.map asciiLower)

/-- `column LIKE '%pat%'` on a cell: `NULL` never matches; an integer cell
is compared through its text rendering. -/
def sqlLikeCell (cell : SVal) (pat : String) : Bool :=
  match cell with
  | .null => false
  | .text s => likeContains pat s
  | .int n => likeContains pat (String.mk (intToDecimal n))

/-- `funcionarioId = ?` where the parameter is the (text) path id: the
column's INTEGER affinity converts a numeric-literal text parameter to its
integer value; a non-numeric parameter compares as text. -/
def sqlEqId (cell : SVal) (idStr : String) : Bool :=
  match jsIntOfString idStr with
  | some n => cell == SVal.int n
  | none => cell == SVal.text idStr

/-- `WHERE id = ?` on the rowid column. -/
def idMatches (idStr : String) (r : StoredRow) : Bool :=
  match jsIntOfString idStr with
  | some n => r.id == n
  | none => false

/-! ## Read-path row processing

Each read route copies the row and post-processes the two encoded columns.
All three routes run the same block for `atribuidos`:

    if (row.atribuidos && typeof row.atribuidos === 'string') {
      try { row.atribuidos = JSON.parse(row.atribuidos); }
      catch (e) { row.atribuidos = []; }
    } else if (!row.atribuidos) { row.atribuidos = []; }

Only the list-all route runs the analogous block for `diasSemana`, and that
block has no `else if (!...)` arm, so a falsy stored `diasSemana` passes
through unchanged. -/

/-- A stored cell as the driver hands it to JavaScript. -/
def svalToJS : SVal → JSVal
  | .null => .null
  | .int n => .num n
  | .text s => .str s

/-- The `atribuidos` post-processing shared by all three read routes. -/
def decodeAtribuidos : SVal → JSVal
  | .text s =>
    if s ≠ "" then
      match jsonParse s with
      | some j => j
      | none => .arr .nil
    else .arr .nil
  | .null => .arr .nil
  | .int n => if n ≠ 0 then .num n else .arr .nil

/-- The `diasSemana` post-processing of the list-all route: decode only a
truthy string; anything else (including stored `NULL`) is left as is. -/
def decodeDiasSemana : SVal → JSVal
  | .text s =>
    if s ≠ "" then
      match jsonParse s with
      | some j => j
      | none => .arr .nil
    else .str s
  | .null => .null
  | .int n => .num n

/-- A row as a read route returns it: every column a JavaScript value. -/
structure ProcessedRow : Type where
  id : JSVal
  funcionarioId : JSVal
  nomeFuncionario : JSVal
  emailFuncionario : JSVal
  categoria : JSVal
  prioridade : JSVal
  complexidade : JSVal
  descricao : JSVal
  localField : JSVal
  dataCriacao : JSVal
  dataLimite : JSVal
  status : JSVal
  isRotina : JSVal
  tag : JSVal
  comentarios : JSVal
  comentarioGestor : JSVal
  dataConclusao : JSVal
  diasSemana : JSVal
  atribuidos : JSVal
  deriving DecidableEq, Repr

/-- Copy a row, processing both `atribuidos` and `diasSemana`
(GET `/api/demandas`). -/
def processRowListAll (r : StoredRow) : ProcessedRow :=
  { id := .num r.id
    funcionarioId := svalToJS r.funcionarioId
    nomeFuncionario := svalToJS r.nomeFuncionario
    emailFuncionario := svalToJS r.emailFuncionario
    categoria := svalToJS r.categoria
    prioridade := svalToJS r.prioridade
    complexidade := svalToJS r.complexidade
    descricao := svalToJS r.descricao
    localField := svalToJS r.localField
    dataCriacao := svalToJS r.dataCriacao
    dataLimite := svalToJS r.dataLimite
    status := svalToJS r.status
    isRotina := svalToJS r.isRotina
    tag := svalToJS r.tag
    comentarios := svalToJS r.comentarios
    comentarioGestor := svalToJS r.comentarioGestor
    dataConclusao := svalToJS r.dataConclusao
    diasSemana := decodeDiasSemana r.diasSemana
    atribuidos := decodeAtribuidos r.atribuidos }

/-- Copy a row, processing only `atribuidos`
(GET `/api/demandas/funcionario/:id` and GET `/api/demandas/status/:status`,
which never touch `diasSemana`). -/
def processRowAtribOnly (r : StoredRow) : ProcessedRow :=
  { id := .num r.id
    funcionarioId := svalToJS r.funcionarioId
    nomeFuncionario := svalToJS r.nomeFuncionario
    emailFuncionario := svalToJS r.emailFuncionario
    categoria := svalToJS r.categoria
    prioridade := svalToJS r.prioridade
    complexidade := svalToJS r.complexidade
    descricao := svalToJS r.descricao
    localField := svalToJS r.localField
    dataCriacao := svalToJS r.dataCriacao
    dataLimite := svalToJS r.dataLimite
    status := svalToJS r.status
    isRotina := svalToJS r.isRotina
    tag := svalToJS r.tag
    comentarios := svalToJS r.comentarios
    comentarioGestor := svalToJS r.comentarioGestor
    dataConclusao := svalToJS r.dataConclusao
    diasSemana := svalToJS r.diasSemana
    atribuidos := decodeAtribuidos r.atribuidos }

/-! ## `ORDER BY dataCriacao DESC` -/

/-- SQLite's ascending value order restricted to the cell values in use:
`NULL` before numbers before text, numbers by value, text by byte order. -/
def svalLe : SVal → SVal → Bool
  | .null, _ => true
  | .int _, .null => false
  | .int a, .int b => decide (a ≤ b)
  | .int _, .text _ => true
  | .text _, .null => false
  | .text _, .int _ => false
  | .text a, .text b => decide (a ≤ b)

/-- `a` may come before `b` under `ORDER BY dataCriacao DESC`. -/
def geByDataCriacao (a b : StoredRow) : Bool := svalLe b.dataCriacao a.dataCriacao

/-- Insert into a list sorted by `ge`. -/
def insertSorted {α : Type} (ge : α → α → Bool) (x : α) : List α → List α
  | [] => [x]
  | y :: ys => if ge x y then x :: y :: ys else y :: insertSorted ge x ys

/-- Insertion sort by `ge` — the model of a `SELECT ... ORDER BY`. -/
def sortByGe {α : Type} (ge : α → α → Bool) : List α → List α
  | [] => []
  | x :: xs => insertSorted ge x (sortByGe ge xs)

theorem insertSorted_perm {α : Type} (ge : α → α → Bool) (x : α) :
    ∀ l : List α, (insertSorted ge x l).Perm (x :: l) := by
  intro l
  induction l with
  | nil => simp [insertSorted]
  | cons y ys ih =>
    by_cases h : ge x y = true
    · simp [insertSorted, h]
    · simp only [insertSorted, h, if_false, Bool.false_eq_true, ite_false]
      exact ((ih.cons y).trans (List.Perm.swap x y ys))

theorem sortByGe_perm {α : Type} (ge : α → α → Bool) :
    ∀ l : List α, (sortByGe ge l).Perm l := by
  intro l
  induction l with
  | nil => simp [sortByGe]
  | cons x xs ih =>
    exact (insertSorted_perm ge x (sortByGe ge xs)).trans (ih.cons x)

theorem insertSorted_sorted {α : Type} (ge : α → α → Bool)
    (htot : ∀ a b, ge a b = true ∨ ge b a = true)
    (htrans : ∀ a b c, ge a b = true → ge b c = true → ge a c = true) (x : α) :
    ∀ l : List α, l.Pairwise (fun a b => ge a b = true) →
      (insertSorted ge x l).Pairwise (fun a b => ge a b = true) := by
  intro l
  induction l with
  | nil => intro _; simp [insertSorted]
  | cons y ys ih =>
    intro hp
    rcases List.pairwise_cons.mp hp with ⟨hy, hys⟩
    by_cases h : ge x y = true
    · simp only [insertSorted, h, if_true, ite_true]
      refine List.pairwise_cons.mpr ⟨?_, hp⟩
      intro b hb
      rcases List.mem_cons.mp hb with rfl | hb
      · exact h
      · exact htrans x y b h (hy b hb)
    · simp only [insertSorted, h, Bool.false_eq_true, if_false, ite_false]
      refine List.pairwise_cons.mpr ⟨?_, ih hys⟩
      intro b hb
      have hperm := insertSorted_perm ge x ys
      have hmem : b ∈ x :: ys := hperm.mem_iff.mp hb
      rcases List.mem_cons.mp hmem with rfl | hbys
      · rcases htot y b with hyx | hxy
        · exact hyx
        · exact absurd hxy h
      · exact hy b hbys

theorem sortByGe_sorted {α : Type} (ge : α → α → Bool)
    (htot : ∀ a b, ge a b = true ∨ ge b a = true)
    (htrans : ∀ a b c, ge a b = true → ge b c = true → ge a c = true) :
    ∀ l : List α, (sortByGe ge l).Pairwise (fun a b => ge a b = true) := by
  intro l
  induction l with
  | nil => simp [sortByGe]
  | cons x xs ih => exact insertSorted_sorted ge htot htrans x (sortByGe ge xs) ih

theorem svalLe_total : ∀ a b : SVal, svalLe a b = true ∨ svalLe b a = true := by
  intro a b
  cases a <;> cases b <;> simp [svalLe] <;> first
    | exact Int.le_total _ _
    | exact le_total _ _

theorem svalLe_trans :
    ∀ a b c : SVal, svalLe a b = true → svalLe b c = true → svalLe a c = true := by
  intro a b c hab hbc
  cases a <;> cases b <;> cases c <;> simp [svalLe] at * <;> exact le_trans hab hbc

/-! ## POST /api/demandas (create) -/

/-- The column list of the handler's INSERT statement, transcribed from the
source.  It names 17 columns. -/
def insertSQLColumns : List String :=
  ["funcionarioId", "nomeFuncionario", "emailFuncionario", "categoria", "prioridade",
   "complexidade", "descricao", "local", "dataCriacao", "dataLimite", "status",
   "isRotina", "diasSemana", "tag", "comentarios", "comentarioGestor", "atribuidos"]

/-- The `VALUES` line of the handler's INSERT statement, verbatim from the
source.  It holds 18 parameter placeholders. -/
def insertSQLValuesClause : String :=
  "VALUES (?, ?, ?, ?, ?, ?, ?, ?, ?, ?, ?, ?, ?, ?, ?, ?, ?, ?)"

/-- Count the `?` placeholders of a SQL fragment. -/
def countPlaceholders (s : String) : Nat := s.data.countP (fun c => c = '?')

example : countPlaceholders insertSQLValuesClause = 18 := by decide
example : insertSQLColumns.length = 17 := by decide

/-- The row the create handler binds for insertion: each column value is the
corresponding entry of the handler's `params` array, in order —
`d.funcionarioId`, `d.nomeFuncionario`, `d.emailFuncionario || ''`,
`d.categoria`, `d.prioridade`, `d.complexidade || ''`, `d.descricao || ''`,
`d.local || ''`, `d.dataCriacao || now`, `d.dataLimite`,
`d.status || 'pendente'`, `d.isRotina ? 1 : 0`,
`d.diasSemana ? JSON.stringify(d.diasSemana) : null`, `d.tag || ''`,
`d.comentarios || ''`, `d.comentarioGestor || ''`,
`d.atribuidos ? JSON.stringify(d.atribuidos) : null`.  `dataConclusao` is
not in the column list, so a fresh row would hold `NULL` there. -/
def resolvedInsertRow (nextId : Int) (d : Req) (now : String) : StoredRow :=
  { id := nextId
    funcionarioId := bindVal d.funcionarioId
    nomeFuncionario := bindVal d.nomeFuncionario
    emailFuncionario := bindVal (some (jsOr d.emailFuncionario (.str "")))
    categoria := bindVal d.categoria
    prioridade := bindVal d.prioridade
    complexidade := bindVal (some (jsOr d.complexidade (.str "")))
    descricao := bindVal (some (jsOr d.descricao (.str "")))
    localField := bindVal (some (jsOr d.localField (.str "")))
    dataCriacao := bindVal (some (jsOr d.dataCriacao (.str now)))
    dataLimite := bindVal d.dataLimite
    status := bindVal (some (jsOr d.status (.str "pendente")))
    isRotina := .int (if truthyOpt d.isRotina then 1 else 0)
    diasSemana := encodeListField d.diasSemana
    tag := bindVal (some (jsOr d.tag (.str "")))
    comentarios := bindVal (some (jsOr d.comentarios (.str "")))
    comentarioGestor := bindVal (some (jsOr d.comentarioGestor (.str "")))
    dataConclusao := .null
    atribuidos := encodeListField d.atribuidos }

/-- Running the INSERT: SQLite refuses to prepare an INSERT whose `VALUES`
row length differs from its column-name list ("N values for M columns"),
before any row is written; otherwise the fresh row is appended. -/
def runInsert (state : List StoredRow) (row : StoredRow) :
    Except String (List StoredRow) :=
  if countPlaceholders insertSQLValuesClause = insertSQLColumns.length then
    .ok (state ++ [row])
  else
    .error ((Nat.repr (countPlaceholders insertSQLValuesClause)) ++ " values for " ++
      (Nat.repr insertSQLColumns.length) ++ " columns")

/-- The success payload `{ id: this.lastID, ...d, dataCriacao: params[8] }`:
the spread lets a body `id` field override `lastID`, and the trailing
`dataCriacao` key overrides whatever the body carried. -/
structure PostDemanda : Type where
  idVal : JSVal
  body : Req
  dataCriacao : JSVal
  deriving DecidableEq, Repr

/-- Outcome of the create handler: HTTP status, the response's `success`
flag and payload, the table afterwards, and how many statements reached the
storage layer. -/
structure PostResult : Type where
  statusCode : Nat
  success : Bool
  demanda : Option PostDemanda
  state : List StoredRow
  stmts : Nat
  deriving DecidableEq, Repr

/-- POST `/api/demandas`: presence validation
(`!d.funcionarioId || !d.nomeFuncionario || !d.categoria || !d.prioridade`
⇒ 400 before touching storage), then the INSERT. -/
def postDemandas (state : List StoredRow) (nextId : Int) (now : String)
    (d : Req) : PostResult :=
  if !truthyOpt d.funcionarioId || !truthyOpt d.nomeFuncionario ||
      !truthyOpt d.categoria || !truthyOpt d.prioridade then
    { statusCode := 400, success := false, demanda := none, state := state, stmts := 0 }
  else
    match runInsert state (resolvedInsertRow nextId d now) with
    | .error _ =>
      { statusCode := 500, success := false, demanda := none, state := state, stmts := 1 }
    | .ok st2 =>
      { statusCode := 200, success := true,
        demanda := some
          { idVal := (d.id).getD (.num nextId), body := d,
            dataCriacao := jsOr d.dataCriacao (.str now) },
        state := st2, stmts := 1 }

/-! ## PUT /api/demandas/:id (update) and DELETE /api/demandas/:id -/

/-- The row after the UPDATE's SET list is applied: every listed column is
overwritten from the request (`dataCriacao` is not in the SET list and is
preserved; `dataConclusao` is `d.dataConclusao || null`; `status` has no
default on update). -/
def updatedRow (r : StoredRow) (d : Req) : StoredRow :=
  { id := r.id
    funcionarioId := bindVal d.funcionarioId
    nomeFuncionario := bindVal d.nomeFuncionario
    emailFuncionario := bindVal (some (jsOr d.emailFuncionario (.str "")))
    categoria := bindVal d.categoria
    prioridade := bindVal d.prioridade
    complexidade := bindVal (some (jsOr d.complexidade (.str "")))
    descricao := bindVal (some (jsOr d.descricao (.str "")))
    localField := bindVal (some (jsOr d.localField (.str "")))
    dataCriacao := r.dataCriacao
    dataLimite := bindVal d.dataLimite
    status := bindVal d.status
    isRotina := .int (if truthyOpt d.isRotina then 1 else 0)
    diasSemana := encodeListField d.diasSemana
    tag := bindVal (some (jsOr d.tag (.str "")))
    comentarios := bindVal (some (jsOr d.comentarios (.str "")))
    comentarioGestor := bindVal (some (jsOr d.comentarioGestor (.str "")))
    dataConclusao := bindVal (some (jsOr d.dataConclusao .null))
    atribuidos := encodeListField d.atribuidos }

/-- Outcome of the update handler.  `demanda` is the response payload
`{ id: Number(id), ...d }`: the resolved `id` key (a body `id` overrides the
path id, by spread order) together with the spread body. -/
structure PutResult : Type where
  statusCode : Nat
  success : Bool
  demanda : Option (JSVal × Req)
  state : List StoredRow
  stmts : Nat
  deriving DecidableEq, Repr

/-- PUT `/api/demandas/:id`: id validation (`!id || isNaN(id)` ⇒ 400 before
touching storage), then the full-row UPDATE, which succeeds whether or not
any row matched. -/
def putDemandas (state : List StoredRow) (idStr : String) (d : Req) : PutResult :=
  if idStr = "" || jsIsNaNStr idStr then
    { statusCode := 400, success := false, demanda := none, state := state, stmts := 0 }
  else
    { statusCode := 200, success := true,
      demanda := some ((d.id).getD (jsNumberVal idStr), d),
      state := state.map (fun r => if idMatches idStr r then updatedRow r d else r),
      stmts := 1 }

/-- Outcome of the delete handler. -/
structure DeleteResult : Type where
  statusCode : Nat
  success : Bool
  state : List StoredRow
  stmts : Nat
  deriving DecidableEq, Repr

/-- DELETE `/api/demandas/:id`: the same id validation, then the DELETE,
which succeeds whether or not any row matched. -/
def deleteDemandas (state : List StoredRow) (idStr : String) : DeleteResult :=
  if idStr = "" || jsIsNaNStr idStr then
    { statusCode := 400, success := false, state := state, stmts := 0 }
  else
    { statusCode := 200, success := true,
      state := state.filter (fun r => !(idMatches idStr r)), stmts := 1 }

/-! ## Read routes -/

/-- GET `/api/demandas`:
`SELECT * FROM demandas ORDER BY dataCriacao DESC`, then per-row processing
of both encoded columns. -/
def getDemandas (state : List StoredRow) : List ProcessedRow :=
  (sortByGe geByDataCriacao state).map processRowListAll

/-- The WHERE clause of the by-employee route:
`funcionarioId = ? OR atribuidos LIKE ?` with the pattern `%"id":<id>%`. -/
def funcionarioWhere (idStr : String) (r : StoredRow) : Bool :=
  sqlEqId r.funcionarioId idStr ||
    sqlLikeCell r.atribuidos ("\"id\":" ++ idStr)

/-- The rows the by-employee route selects, in order. -/
def getDemandasFuncionarioRows (state : List StoredRow) (idStr : String) :
    List StoredRow :=
  sortByGe geByDataCriacao (state.filter (funcionarioWhere idStr))

/-- GET `/api/demandas/funcionario/:id`: id validation (`!id || isNaN(id)`
⇒ 400, modelled as `none`), then the filtered, ordered select with
`atribuidos`-only processing. -/
def getDemandasFuncionario (state : List StoredRow) (idStr : String) :
    Option (List ProcessedRow) :=
  if idStr = "" || jsIsNaNStr idStr then none
  else some ((getDemandasFuncionarioRows state idStr).map processRowAtribOnly)

/-- GET `/api/demandas/status/:status`: a missing status is rejected
(`none`); otherwise `SELECT ... WHERE status = ? ORDER BY dataCriacao DESC`
with `atribuidos`-only processing. -/
def getDemandasStatus (state : List StoredRow) (status : String) :
    Option (List ProcessedRow) :=
  if status = "" then none
  else
    some ((sortByGe geByDataCriacao
      (state.filter (fun r => r.status == SVal.text status))).map processRowAtribOnly)

/-! ## Helper lemmas about id strings -/

theorem dropWhile_all_false {α : Type} (p : α → Bool) :
    ∀ l : List α, (∀ c ∈ l, p c = false) → l.dropWhile p = l := by
  intro l h
  cases l with
  | nil => rfl
  | cons c cs => simp [List.dropWhile_cons, h c (by simp)]

theorem jsTrim_of_no_space (l : List Char) (h : ∀ c ∈ l, isJsSpace c = false) :
    jsTrim (String.mk l) = l := by
  show ((l.dropWhile isJsSpace).reverse.dropWhile isJsSpace).reverse = l
  rw [dropWhile_all_false _ l h]
  rw [dropWhile_all_false _ l.reverse (by intro c hc; exact h c (List.mem_reverse.mp hc))]
  exact List.reverse_reverse l

theorem digit_not_jsSpace {c : Char} (h : isDigitCh c = true) : isJsSpace c = false := by
  have hd := digit_toNat h
  have h1 : c ≠ ' ' := digit_ne h (by decide)
  have h2 : c ≠ '\x09' := digit_ne h (by decide)
  have h3 : c ≠ '\x0a' := digit_ne h (by decide)
  have h4 : c ≠ '\x0d' := digit_ne h (by decide)
  have h5 : c ≠ '\x0b' := digit_ne h (by decide)
  have h6 : c ≠ '\x0c' := digit_ne h (by decide)
  have h7 : c ≠ '\xa0' := digit_ne h (by decide)
  have h8 : ¬(c.toNat = 65279) := by omega
  simp [isJsSpace, h1, h2, h3, h4, h5, h6, h7, h8]

theorem intToDecimal_no_space (n : Int) : ∀ c ∈ intToDecimal n, isJsSpace c = false := by
  intro c hc
  by_cases hn : n < 0
  · simp only [intToDecimal, if_pos hn] at hc
    rcases List.mem_cons.mp hc with rfl | hm
    · decide
    · exact digit_not_jsSpace (natDigits_all_digits _ c hm)
  · simp only [intToDecimal, if_neg hn] at hc
    exact digit_not_jsSpace (natDigits_all_digits _ c hc)

theorem digitsVal_natDigits (n : Nat) : digitsVal (natDigits n) = n := by
  have h := natDigits_foldl n 0
  simpa [digitsVal] using h

theorem natDigits_all_digits_bool (n : Nat) : (natDigits n).all isDigitCh = true := by
  rw [List.all_eq_true]
  exact natDigits_all_digits n

theorem jsIntOfString_canonical (n : Int) :
    jsIntOfString (String.mk (intToDecimal n)) = some n := by
  unfold jsIntOfString
  rw [jsTrim_of_no_space _ (intToDecimal_no_space n)]
  by_cases hn : n < 0
  · simp only [intToDecimal, if_pos hn]
    have hne : natDigits (-n).toNat ≠ [] := natDigits_ne_nil _
    have hall := natDigits_all_digits_bool (-n).toNat
    have hcast : -((digitsVal (natDigits (-n).toNat) : Nat) : Int) = n := by
      rw [digitsVal_natDigits]; omega
    simp +decide [hne, hall, hcast]
  · simp only [intToDecimal, if_neg hn]
    obtain ⟨c, cs, heq⟩ : ∃ c cs, natDigits n.toNat = c :: cs := by
      cases hnd : natDigits n.toNat with
      | nil => exact absurd hnd (natDigits_ne_nil _)
      | cons c cs => exact ⟨c, cs, rfl⟩
    have hcd : isDigitCh c = true := natDigits_all_digits _ c (by rw [heq]; simp)
    have hcp : c ≠ '+' := digit_ne hcd (by decide)
    have hcm : c ≠ '-' := digit_ne hcd (by decide)
    have hall := natDigits_all_digits_bool n.toNat
    rw [heq]
    rw [heq] at hall
    have hval : digitsVal (c :: cs) = n.toNat := by
      rw [← heq]; exact digitsVal_natDigits n.toNat
    have hcast : ((n.toNat : Nat) : Int) = n := by omega
    simp [hcp, hcm, hall, hval, hcast]

/-- The canonical decimal string of an integer id. -/
def canonicalId (n : Int) : String := String.mk (intToDecimal n)

theorem canonicalId_ne_empty (n : Int) : canonicalId n ≠ "" := by
  intro h
  have hd : (canonicalId n).data = intToDecimal n := rfl
  rw [h] at hd
  by_cases hn : n < 0
  · simp [intToDecimal, hn] at hd
  · exact natDigits_ne_nil _ (by simpa [intToDecimal, hn] using hd.symm)

theorem decLit_digits (l : List Char) (hne : l ≠ []) (hall : l.all isDigitCh = true) :
    decLit l = true := by
  cases l with
  | nil => exact absurd rfl hne
  | cons c cs =>
    have hcd : isDigitCh c = true := by
      rw [List.all_eq_true] at hall
      exact hall c (by simp)
    have hcdot : c ≠ '.' := digit_ne hcd (by decide)
    have hdrop : dropDigits (c :: cs) = [] := by
      simp only [dropDigits]
      rw [List.dropWhile_eq_nil_iff.mpr]
      intro x hx
      rw [List.all_eq_true] at hall
      exact hall x hx
    have hhd : headDigit (c :: cs) = true := by simp [headDigit, hcd]
    simp [decLit, hcdot, hhd, hdrop, afterIntPart]

theorem jsIsNaNStr_canonical (n : Int) : jsIsNaNStr (canonicalId n) = false := by
  unfold jsIsNaNStr canonicalId
  rw [jsTrim_of_no_space _ (intToDecimal_no_space n)]
  by_cases hn : n < 0
  · simp only [intToDecimal, if_pos hn]
    have hne : natDigits (-n).toNat ≠ [] := natDigits_ne_nil _
    have hall := natDigits_all_digits_bool (-n).toNat
    simp +decide [jsNumericBody, decOrInf, decLit_digits _ hne hall]
  · simp only [intToDecimal, if_neg hn]
    have hne : natDigits n.toNat ≠ [] := natDigits_ne_nil _
    have hall := natDigits_all_digits_bool n.toNat
    obtain ⟨c, cs, heq⟩ : ∃ c cs, natDigits n.toNat = c :: cs := by
      cases hnd : natDigits n.toNat with
      | nil => exact absurd hnd (natDigits_ne_nil _)
      | cons c cs => exact ⟨c, cs, rfl⟩
    have hcd : isDigitCh c = true := natDigits_all_digits _ c (by rw [heq]; simp)
    have hcp : c ≠ '+' := digit_ne hcd (by decide)
    have hcm : c ≠ '-' := digit_ne hcd (by decide)
    have hlit : decLit (natDigits n.toNat) = true := decLit_digits _ hne hall
    rw [heq] at hlit ⊢
    simp [jsNumericBody, hcp, hcm, decOrInf, hlit]

/-- An ASCII letter. -/
def isAsciiAlpha (c : Char) : Bool :=
  (65 ≤ c.toNat && c.toNat ≤ 90) || (97 ≤ c.toNat && c.toNat ≤ 122)

theorem alpha_ne {c k : Char} (h : isAsciiAlpha c = true)
    (hk : k.toNat < 65 ∨ (90 < k.toNat ∧ k.toNat < 97) ∨ 122 < k.toNat) : c ≠ k := by
  intro hc
  have he := char_eq_iff_toNat.mp hc
  simp [isAsciiAlpha] at h
  omega

theorem alpha_not_jsSpace {c : Char} (h : isAsciiAlpha c = true) : isJsSpace c = false := by
  have h1 : c ≠ ' ' := alpha_ne h (by decide)
  have h2 : c ≠ '\x09' := alpha_ne h (by decide)
  have h3 : c ≠ '\x0a' := alpha_ne h (by decide)
  have h4 : c ≠ '\x0d' := alpha_ne h (by decide)
  have h5 : c ≠ '\x0b' := alpha_ne h (by decide)
  have h6 : c ≠ '\x0c' := alpha_ne h (by decide)
  have h7 : c ≠ '\xa0' := alpha_ne h (by decide)
  have h8 : ¬(c.toNat = 65279) := by
    simp [isAsciiAlpha] at h
    omega
  simp [isJsSpace, h1, h2, h3, h4, h5, h6, h7, h8]

theorem alpha_not_digit {c : Char} (h : isAsciiAlpha c = true) : isDigitCh c = false := by
  simp [isAsciiAlpha] at h
  simp [isDigitCh]
  omega

/-- A nonempty all-ASCII-letter string other than `Infinity` does not coerce
to a number: `isNaN` holds for it.  (`Number("Infinity")` is `Infinity`, so
the single alphabetic exception is genuine.) -/
theorem jsIsNaNStr_alpha (s : String) (hne : s ≠ "")
    (hall : ∀ c ∈ s.data, isAsciiAlpha c = true) (hinf : s ≠ "Infinity") :
    jsIsNaNStr s = true := by
  unfold jsIsNaNStr
  have htrim : jsTrim s = s.data := by
    have := jsTrim_of_no_space s.data (fun c hc => alpha_not_jsSpace (hall c hc))
    simpa using this
  rw [htrim]
  obtain ⟨c, cs, heq⟩ : ∃ c cs, s.data = c :: cs := by
    cases hd : s.data with
    | nil =>
      exfalso
      apply hne
      cases s with
      | mk l => simp at hd; rw [hd]
    | cons c cs => exact ⟨c, cs, rfl⟩
  have hca : isAsciiAlpha c = true := hall c (by rw [heq]; simp)
  have hcp : c ≠ '+' := alpha_ne hca (by decide)
  have hcm : c ≠ '-' := alpha_ne hca (by decide)
  have hc0 : c ≠ '0' := alpha_ne hca (by decide)
  have hcdot : c ≠ '.' := alpha_ne hca (by decide)
  have hcdig : isDigitCh c = false := alpha_not_digit hca
  have hradix : radixLit (c :: cs) = false := by
    cases cs with
    | nil => simp [radixLit]
    | cons p rest => simp [radixLit, hc0]
  have hinfd : ¬(c :: cs = ['I', 'n', 'f', 'i', 'n', 'i', 't', 'y']) := by
    intro hcon
    apply hinf
    cases s with
    | mk l =>
      simp only at heq
      rw [heq] at *
      exact congrArg String.mk hcon
  have hdec : decLit (c :: cs) = false := by
    simp [decLit, hcdot, headDigit, hcdig]
  rw [heq]
  simp [jsNumericBody, hcp, hcm, hradix, decOrInf, hinfd, hdec]

theorem sqlEqId_canonical (cell : SVal) (n : Int) :
    sqlEqId cell (canonicalId n) = (cell == SVal.int n) := by
  simp [sqlEqId, canonicalId, jsIntOfString_canonical]

theorem idMatches_canonical (r : StoredRow) (n : Int) :
    idMatches (canonicalId n) r = (r.id == n) := by
  simp [idMatches, canonicalId, jsIntOfString_canonical]

theorem jsNumberVal_canonical (n : Int) : jsNumberVal (canonicalId n) = .num n := by
  simp [jsNumberVal, canonicalId, jsIntOfString_canonical]

theorem jsonStringify_ne_empty (v : JSVal) : jsonStringify v ≠ "" := by
  intro h
  obtain ⟨c, cs, he, _⟩ := stringifyVal_head v
  have : (jsonStringify v).data = c :: cs := by
    show stringifyVal v = c :: cs
    exact he
  rw [h] at this
  simp at this

/-! ## Fixtures for concrete evaluations -/

/-- A request body with no fields at all. -/
def emptyReq : Req := {}

/-- A minimal create request carrying exactly the four required fields. -/
def reqAna : Req :=
  { funcionarioId := some (.num 1), nomeFuncionario := some (.str "Ana"),
    categoria := some (.str "Limpeza"), prioridade := some (.str "alta") }

/-- A fixed clock reading. -/
def now0 : String := "2024-01-01T00:00:00.000Z"

/-- A stored row as a successful create would have produced it. -/
def rowBase : StoredRow :=
  { id := 1, funcionarioId := .int 1, nomeFuncionario := .text "Ana",
    emailFuncionario := .text "", categoria := .text "Limpeza",
    prioridade := .text "alta", complexidade := .text "", descricao := .text "",
    localField := .text "", dataCriacao := .text now0, dataLimite := .null,
    status := .text "pendente", isRotina := .int 0, diasSemana := .null,
    tag := .text "", comentarios := .text "", comentarioGestor := .text "",
    dataConclusao := .null, atribuidos := .null }

example : (postDemandas [] 1 now0 reqAna).statusCode = 500 := by decide
example : (postDemandas [] 1 now0 emptyReq).statusCode = 400 := by decide

/-! ## Claim C1 -/

/-- C1 (code_bug): for a create request carrying every required field, the
handler's INSERT names 17 columns but supplies 18 placeholders, so the
storage layer rejects the statement: the handler answers HTTP 500 with
`success:false` and no payload, and no row is persisted — the response is
never the claimed `{success:true, task}` with an assigned id. -/
theorem create_insert_arity_rejects_valid_request :
    postDemandas [] 1 now0 reqAna =
      { statusCode := 500, success := false, demanda := none, state := [], stmts := 1 } ∧
    runInsert [] (resolvedInsertRow 1 reqAna now0) =
      .error "18 values for 17 columns" ∧
    countPlaceholders insertSQLValuesClause = 18 ∧
    insertSQLColumns.length = 17 := by
  refine ⟨by decide, by rfl, by decide, by decide⟩

/-! ## Claim C4 -/

/-- C4 (confirmed): a create request missing any of `funcionarioId`,
`nomeFuncionario`, `categoria`, `prioridade` is answered 400 with
`success:false`, the table is untouched, and no statement reaches the
storage layer. -/
theorem create_missing_required_field_rejected
    (state : List StoredRow) (nextId : Int) (now : String) (d : Req)
    (h : d.funcionarioId = none ∨ d.nomeFuncionario = none ∨
      d.categoria = none ∨ d.prioridade = none) :
    postDemandas state nextId now d =
      { statusCode := 400, success := false, demanda := none,
        state := state, stmts := 0 } := by
  rcases h with h | h | h | h <;> simp [postDemandas, h, truthyOpt]

/-- Witness for C4 at a concrete request missing `prioridade`. -/
theorem create_missing_required_field_rejected_witness :
    postDemandas [] 1 now0
        { funcionarioId := some (.num 1), nomeFuncionario := some (.str "Ana"),
          categoria := some (.str "Limpeza") } =
      { statusCode := 400, success := false, demanda := none, state := [], stmts := 0 } :=
  create_missing_required_field_rejected [] 1 now0 _
    (Or.inr (Or.inr (Or.inr rfl)))

/-! ## Claim C10 -/

/-- C10 (confirmed): an `employeeId` that is present but falsy — the number
0 or the empty string — fails the truthiness validation exactly as if the
field were absent: 400, no storage statement, same outcome as the
field-removed request.  Hence no record with `employeeId` 0 is ever created
through this interface. -/
theorem create_falsy_employeeId_rejected
    (state : List StoredRow) (nextId : Int) (now : String) (d : Req)
    (h : d.funcionarioId = some (.num 0) ∨ d.funcionarioId = some (.str "")) :
    postDemandas state nextId now d =
      { statusCode := 400, success := false, demanda := none,
        state := state, stmts := 0 } ∧
    postDemandas state nextId now d =
      postDemandas state nextId now { d with funcionarioId := none } := by
  have h400 : postDemandas state nextId now { d with funcionarioId := none } =
      { statusCode := 400, success := false, demanda := none,
        state := state, stmts := 0 } :=
    create_missing_required_field_rejected state nextId now _ (Or.inl rfl)
  rcases h with h | h
  · constructor
    · simp [postDemandas, h, truthyOpt, truthy]
    · rw [h400]
      simp [postDemandas, h, truthyOpt, truthy]
  · constructor
    · simp [postDemandas, h, truthyOpt, truthy]
    · rw [h400]
      simp [postDemandas, h, truthyOpt, truthy]

/-- Witness for C10 at `employeeId = 0`. -/
theorem create_falsy_employeeId_rejected_witness :
    postDemandas [] 1 now0 { reqAna with funcionarioId := some (.num 0) } =
      { statusCode := 400, success := false, demanda := none, state := [], stmts := 0 } :=
  (create_falsy_employeeId_rejected [] 1 now0 _ (Or.inl rfl)).1

/-! ## Claim C5 -/

theorem geByDataCriacao_total :
    ∀ a b : StoredRow, geByDataCriacao a b = true ∨ geByDataCriacao b a = true := by
  intro a b
  rcases svalLe_total a.dataCriacao b.dataCriacao with h | h
  · exact Or.inr h
  · exact Or.inl h

theorem geByDataCriacao_trans :
    ∀ a b c : StoredRow, geByDataCriacao a b = true → geByDataCriacao b c = true →
      geByDataCriacao a c = true := by
  intro a b c hab hbc
  exact svalLe_trans _ _ _ hbc hab

/-- C5 (code_bug): list-all indeed returns every stored record, ordered by
`dataCriacao` descending (a permutation of the table, pairwise sorted, one
response row per stored row) — but "after N creates it returns exactly N
records" fails, because create never persists (its INSERT carries 18 values
for its 17 named columns, see C1): after one valid create on an empty
table, list-all returns no records instead of one. -/
theorem list_all_order_and_create_bug :
    (∀ state : List StoredRow,
      (sortByGe geByDataCriacao state).Perm state ∧
      (sortByGe geByDataCriacao state).Pairwise (fun a b => geByDataCriacao a b = true) ∧
      getDemandas state = (sortByGe geByDataCriacao state).map processRowListAll ∧
      (getDemandas state).length = state.length) ∧
    getDemandas (postDemandas [] 1 now0 reqAna).state = [] := by
  constructor
  · intro state
    refine ⟨sortByGe_perm _ state,
      sortByGe_sorted _ geByDataCriacao_total geByDataCriacao_trans state, rfl, ?_⟩
    show ((sortByGe geByDataCriacao state).map processRowListAll).length = state.length
    rw [List.length_map]
    exact (sortByGe_perm _ state).length_eq
  · decide

/-! ## Claim C7 -/

/-- C7 counterexample: with `status` absent, the value the create handler
binds for the `status` column is the string `"pendente"`, not the claimed
`"pending"`. -/
theorem create_status_default_pendente_cex :
    (resolvedInsertRow 1 reqAna now0).status = SVal.text "pendente" ∧
    SVal.text "pendente" ≠ SVal.text "pending" := by decide

/-- C7 (corrected): the create handler's defaults, field by field —
`status` ← `"pendente"` when absent, `dataCriacao` ← the current time when
absent, the optional descriptive strings (`emailFuncionario`,
`complexidade`, `descricao`, `local`, `tag`, `comentarios`,
`comentarioGestor`) ← `""` when absent, and the two list fields ← `NULL`
when absent.  (`dataLimite` has no default: absent binds as `NULL`.) -/
theorem create_defaults (nextId : Int) (d : Req) (now : String) :
    (d.status = none → (resolvedInsertRow nextId d now).status = SVal.text "pendente") ∧
    (d.dataCriacao = none →
      (resolvedInsertRow nextId d now).dataCriacao = SVal.text now) ∧
    (d.emailFuncionario = none →
      (resolvedInsertRow nextId d now).emailFuncionario = SVal.text "") ∧
    (d.complexidade = none →
      (resolvedInsertRow nextId d now).complexidade = SVal.text "") ∧
    (d.descricao = none → (resolvedInsertRow nextId d now).descricao = SVal.text "") ∧
    (d.localField = none → (resolvedInsertRow nextId d now).localField = SVal.text "") ∧
    (d.tag = none → (resolvedInsertRow nextId d now).tag = SVal.text "") ∧
    (d.comentarios = none →
      (resolvedInsertRow nextId d now).comentarios = SVal.text "") ∧
    (d.comentarioGestor = none →
      (resolvedInsertRow nextId d now).comentarioGestor = SVal.text "") ∧
    (d.diasSemana = none → (resolvedInsertRow nextId d now).diasSemana = SVal.null) ∧
    (d.atribuidos = none → (resolvedInsertRow nextId d now).atribuidos = SVal.null) ∧
    (d.dataLimite = none → (resolvedInsertRow nextId d now).dataLimite = SVal.null) := by
  refine ⟨?_, ?_, ?_, ?_, ?_, ?_, ?_, ?_, ?_, ?_, ?_, ?_⟩ <;>
    · intro h
      simp [resolvedInsertRow, h, jsOr, bindVal, encodeListField, truthyOpt]

/-- Witness for C7's amended defaults at the empty request. -/
theorem create_defaults_witness :
    (resolvedInsertRow 1 emptyReq now0).status = SVal.text "pendente" ∧
    (resolvedInsertRow 1 emptyReq now0).dataCriacao = SVal.text now0 ∧
    (resolvedInsertRow 1 emptyReq now0).emailFuncionario = SVal.text "" ∧
    (resolvedInsertRow 1 emptyReq now0).diasSemana = SVal.null ∧
    (resolvedInsertRow 1 emptyReq now0).atribuidos = SVal.null :=
  ⟨(create_defaults 1 emptyReq now0).1 rfl,
   (create_defaults 1 emptyReq now0).2.1 rfl,
   (create_defaults 1 emptyReq now0).2.2.1 rfl,
   (create_defaults 1 emptyReq now0).2.2.2.2.2.2.2.2.2.1 rfl,
   (create_defaults 1 emptyReq now0).2.2.2.2.2.2.2.2.2.2.1 rfl⟩

/-! ## Claim C6 -/

/-- C6 counterexample: an empty list is truthy in JavaScript, so the create
handler's `d.x ? JSON.stringify(d.x) : null` stores it as the text `"[]"`,
not as `NULL` as the claim's parenthetical asserts. -/
theorem list_field_encode_empty_cex :
    encodeListField (some (.arr .nil)) = SVal.text "[]" ∧
    SVal.text "[]" ≠ SVal.null := by decide

/-- C6 (corrected): the encode/decode round trip.  Encoding any list `L`
(empty included) stores the JSON text of `L`; decoding that text on read —
on either list field — recovers `L` exactly.  A `null` or absent stored
value decodes to the empty list for `atribuidos`; for `diasSemana` the
list-all decode leaves a stored `NULL` as `null` (only truthy text is
decoded). -/
theorem list_field_roundtrip (L : JSArr) :
    encodeListField (some (.arr L)) = SVal.text (jsonStringify (.arr L)) ∧
    decodeAtribuidos (encodeListField (some (.arr L))) = .arr L ∧
    decodeDiasSemana (encodeListField (some (.arr L))) = .arr L ∧
    encodeListField none = SVal.null ∧
    decodeAtribuidos SVal.null = .arr .nil ∧
    decodeAtribuidos (SVal.text "") = .arr .nil ∧
    decodeDiasSemana SVal.null = JSVal.null := by
  have hne : jsonStringify (.arr L) ≠ "" := jsonStringify_ne_empty _
  have henc : encodeListField (some (.arr L)) = SVal.text (jsonStringify (.arr L)) := by
    simp [encodeListField, truthyOpt, truthy]
  refine ⟨henc, ?_, ?_, rfl, rfl, by decide, rfl⟩
  · rw [henc]
    simp [decodeAtribuidos, hne, jsonParse_jsonStringify]
  · rw [henc]
    simp [decodeDiasSemana, hne, jsonParse_jsonStringify]

/-! ## Claim C2 -/

/-- Is this JavaScript value an array? -/
def isArrJS : JSVal → Bool
  | .arr _ => true
  | _ => false

/-- C2 counterexample: a stored row whose `diasSemana` is `NULL` is returned
by list-all with `diasSemana` still `null` — not an array — because the
`diasSemana` processing has no branch for falsy stored values. -/
theorem read_weekDays_null_not_array_cex :
    (getDemandas [rowBase]).map (fun r => r.diasSemana) = [JSVal.null] ∧
    isArrJS JSVal.null = false := by decide

/-- C2 (corrected): what the read routes really do with the two encoded
columns.  Every returned row is a processed copy of a stored row; in all
three routes `atribuidos` is an array whenever the stored cell is `NULL`,
empty text, malformed text, or text encoding an array; but `diasSemana` is
decoded only by list-all and only when the stored value is truthy text — a
stored `NULL` is returned as `null` by list-all, and the by-employee and
by-status routes return `diasSemana` exactly as stored. -/
theorem reads_decode_amended :
    (∀ state : List StoredRow, ∀ pr ∈ getDemandas state,
      ∃ r ∈ state, pr = processRowListAll r) ∧
    (∀ (state : List StoredRow) (idStr : String) (rows : List ProcessedRow),
      getDemandasFuncionario state idStr = some rows →
      ∀ pr ∈ rows, ∃ r ∈ state, pr = processRowAtribOnly r) ∧
    (∀ (state : List StoredRow) (st : String) (rows : List ProcessedRow),
      getDemandasStatus state st = some rows →
      ∀ pr ∈ rows, ∃ r ∈ state, pr = processRowAtribOnly r) ∧
    (∀ r : StoredRow,
      (r.atribuidos = SVal.null ∨ r.atribuidos = SVal.text "" ∨
        (∃ s, r.atribuidos = SVal.text s ∧ jsonParse s = none) ∨
        (∃ s es, r.atribuidos = SVal.text s ∧ jsonParse s = some (.arr es))) →
      isArrJS (processRowListAll r).atribuidos = true ∧
      isArrJS (processRowAtribOnly r).atribuidos = true) ∧
    (∀ r : StoredRow, r.diasSemana = SVal.null →
      (processRowListAll r).diasSemana = JSVal.null) ∧
    (∀ (r : StoredRow) (s : String), r.diasSemana = SVal.text s →
      (processRowAtribOnly r).diasSemana = JSVal.str s) := by
  refine ⟨?_, ?_, ?_, ?_, ?_, ?_⟩
  · intro state pr hpr
    obtain ⟨r, hr, hpr2⟩ := List.mem_map.mp hpr
    exact ⟨r, (sortByGe_perm geByDataCriacao state).mem_iff.mp hr, hpr2.symm⟩
  · intro state idStr rows hrows pr hpr
    unfold getDemandasFuncionario at hrows
    by_cases hc : idStr = "" ∨ jsIsNaNStr idStr = true
    · simp [hc] at hrows
    · rw [if_neg (by simpa using hc)] at hrows
      obtain rfl := (Option.some_inj.mp hrows).symm
      obtain ⟨r, hr, hpr2⟩ := List.mem_map.mp hpr
      have hr2 : r ∈ (state.filter (funcionarioWhere idStr)) :=
        (sortByGe_perm geByDataCriacao _).mem_iff.mp hr
      exact ⟨r, List.mem_of_mem_filter hr2, hpr2.symm⟩
  · intro state st rows hrows pr hpr
    unfold getDemandasStatus at hrows
    by_cases hc : st = ""
    · simp [hc] at hrows
    · rw [if_neg hc] at hrows
      obtain rfl := (Option.some_inj.mp hrows).symm
      obtain ⟨r, hr, hpr2⟩ := List.mem_map.mp hpr
      have hr2 := (sortByGe_perm geByDataCriacao _).mem_iff.mp hr
      exact ⟨r, List.mem_of_mem_filter hr2, hpr2.symm⟩
  · intro r h
    have hgoal : isArrJS (decodeAtribuidos r.atribuidos) = true := by
      rcases h with h | h | ⟨s, hs, hp⟩ | ⟨s, es, hs, hp⟩
      · rw [h]; decide
      · rw [h]; decide
      · rw [hs]
        by_cases hse : s = ""
        · simp [decodeAtribuidos, hse, isArrJS]
        · simp [decodeAtribuidos, hse, hp, isArrJS]
      · have hse : s ≠ "" := by
          intro hcon
          rw [hcon] at hp
          exact Option.noConfusion ((rfl : jsonParse "" = none).symm.trans hp)
        rw [hs]
        simp [decodeAtribuidos, hse, hp, isArrJS]
    exact ⟨hgoal, hgoal⟩
  · intro r h
    simp [processRowListAll, decodeDiasSemana, h]
  · intro r s h
    simp [processRowAtribOnly, svalToJS, h]

/-- Witness for C2's amended decoding facts at a concrete stored row. -/
theorem reads_decode_amended_witness :
    isArrJS (processRowListAll rowBase).atribuidos = true ∧
    isArrJS (processRowAtribOnly rowBase).atribuidos = true ∧
    (processRowListAll rowBase).diasSemana = JSVal.null :=
  ⟨(reads_decode_amended.2.2.2.1 rowBase (Or.inl rfl)).1,
   (reads_decode_amended.2.2.2.1 rowBase (Or.inl rfl)).2,
   reads_decode_amended.2.2.2.2.1 rowBase rfl⟩

/-! ## Claim C3 -/

/-- A stored row whose serialized assignee key is upper-cased. -/
def rowUpperId : StoredRow :=
  { rowBase with id := 2, atribuidos := SVal.text "[\x7b\"ID\":7\x7d]" }

/-- C3 counterexample: SQLite's default `LIKE` is ASCII-case-insensitive,
so the by-employee query returns a record whose stored assignees text
contains `"ID":7` even though its `funcionarioId` is not 7 and the text
does not contain the exact substring `"id":7` — the record matches neither
of the claim's two conditions yet is returned. -/
theorem byEmployee_like_case_insensitive_cex :
    getDemandasFuncionario [rowUpperId] "7" = some [processRowAtribOnly rowUpperId] ∧
    rowUpperId.funcionarioId ≠ SVal.int 7 ∧
    containsExact "\"id\":7" "[\x7b\"ID\":7\x7d]" = false := by
  refine ⟨by decide, by decide, by decide⟩

/-- C3 (corrected): the by-employee listing returns exactly the records
whose `funcionarioId` equals the requested id or whose stored `atribuidos`
cell matches `LIKE '%"id":<id>%'` — a substring match up to ASCII case
(and through the text rendering of a numeric cell), not the exact
case-sensitive substring containment the claim states. -/
theorem byEmployee_filter_characterization (state : List StoredRow) (n : Int) :
    getDemandasFuncionario state (canonicalId n) =
      some ((getDemandasFuncionarioRows state (canonicalId n)).map processRowAtribOnly) ∧
    (getDemandasFuncionarioRows state (canonicalId n)).Perm
      (state.filter (funcionarioWhere (canonicalId n))) ∧
    ∀ r : StoredRow, r ∈ getDemandasFuncionarioRows state (canonicalId n) ↔
      r ∈ state ∧ (r.funcionarioId = SVal.int n ∨
        sqlLikeCell r.atribuidos ("\"id\":" ++ canonicalId n) = true) := by
  refine ⟨?_, sortByGe_perm _ _, ?_⟩
  · simp [getDemandasFuncionario, canonicalId_ne_empty n, jsIsNaNStr_canonical n]
  · intro r
    constructor
    · intro hr
      have hf : r ∈ state.filter (funcionarioWhere (canonicalId n)) :=
        (sortByGe_perm geByDataCriacao _).mem_iff.mp hr
      have hm := List.mem_of_mem_filter hf
      have hp := List.of_mem_filter hf
      refine ⟨hm, ?_⟩
      rw [funcionarioWhere, sqlEqId_canonical] at hp
      rcases Bool.or_eq_true_iff.mp hp with h | h
      · exact Or.inl (by simpa using h)
      · exact Or.inr h
    · intro ⟨hm, hcond⟩
      apply (sortByGe_perm geByDataCriacao _).mem_iff.mpr
      apply List.mem_filter.mpr
      refine ⟨hm, ?_⟩
      rw [funcionarioWhere, sqlEqId_canonical]
      apply Bool.or_eq_true_iff.mpr
      rcases hcond with h | h
      · exact Or.inl (by simpa using h)
      · exact Or.inr h

/-! ## Claim C8 -/

/-- C8 counterexample: the path id `"-3"` is not a positive integer, yet it
passes the `!id || isNaN(id)` validation: the update answers 200 with
`success:true` and a statement reaches the storage layer. -/
theorem update_negative_id_passes_validation_cex :
    (putDemandas [] "-3" emptyReq).statusCode = 200 ∧
    (putDemandas [] "-3" emptyReq).success = true ∧
    (putDemandas [] "-3" emptyReq).stmts = 1 ∧
    jsIntOfString "-3" = some (-3) := by
  refine ⟨by decide, by decide, by decide, by decide⟩

/-- C8 (corrected): the update validation accepts any nonempty id string
JavaScript coerces to a number — not only positive integers.  An empty or
NaN-coercing id is rejected with 400 before any storage statement; in
particular every nonempty all-alphabetic id other than `"Infinity"` is so
rejected; and any id passing validation reaches storage. -/
theorem update_id_validation (state : List StoredRow) (d : Req) (idStr : String) :
    ((idStr = "" ∨ jsIsNaNStr idStr = true) →
      putDemandas state idStr d =
        { statusCode := 400, success := false, demanda := none,
          state := state, stmts := 0 }) ∧
    ((∀ c ∈ idStr.data, isAsciiAlpha c = true) → idStr ≠ "" → idStr ≠ "Infinity" →
      putDemandas state idStr d =
        { statusCode := 400, success := false, demanda := none,
          state := state, stmts := 0 }) ∧
    (idStr ≠ "" → jsIsNaNStr idStr = false → (putDemandas state idStr d).stmts = 1) := by
  refine ⟨?_, ?_, ?_⟩
  · intro h
    rcases h with h | h <;> simp [putDemandas, h]
  · intro hall hne hinf
    simp [putDemandas, jsIsNaNStr_alpha idStr hne hall hinf]
  · intro h1 h2
    simp [putDemandas, h1, h2]

/-- Witness for C8's amended validation at the alphabetic id `"abc"`. -/
theorem update_id_validation_witness :
    putDemandas [] "abc" emptyReq =
      { statusCode := 400, success := false, demanda := none, state := [], stmts := 0 } :=
  (update_id_validation [] emptyReq "abc").2.1 (by decide) (by decide) (by decide)

/-! ## Claim C9 -/

/-- A request body that itself carries an `id` field. -/
def reqWithId99 : Req := { id := some (.num 99) }

/-- C9 counterexample: the update response is `{ id: Number(id), ...d }`,
and object spread lets a body `id` field override the path id: updating
record 7 with a body whose `id` is 99 answers success with the record
annotated `id: 99`, not the path's numeric id 7. -/
theorem update_body_id_overrides_path_id_cex :
    (putDemandas [] "7" reqWithId99).success = true ∧
    (putDemandas [] "7" reqWithId99).demanda = some (JSVal.num 99, reqWithId99) ∧
    JSVal.num 99 ≠ JSVal.num 7 := by
  refine ⟨by decide, by decide, by decide⟩

/-- C9 (corrected): update with a valid numeric id always answers 200
`success:true`; the response record is the given body annotated with the
numeric path id unless the body itself carries an `id`, which wins by
spread order; when no row has the id the update is a success no-op (state
unchanged), and delete of a nonexistent id likewise answers success —
neither is a distinct not-found error. -/
theorem update_delete_missing_id_noop (state : List StoredRow) (d : Req) (n : Int) :
    ((putDemandas state (canonicalId n) d).statusCode = 200 ∧
      (putDemandas state (canonicalId n) d).success = true) ∧
    (d.id = none → (putDemandas state (canonicalId n) d).demanda = some (.num n, d)) ∧
    (∀ v, d.id = some v →
      (putDemandas state (canonicalId n) d).demanda = some (v, d)) ∧
    ((∀ r ∈ state, r.id ≠ n) → (putDemandas state (canonicalId n) d).state = state) ∧
    ((∀ r ∈ state, r.id ≠ n) →
      deleteDemandas state (canonicalId n) =
        { statusCode := 200, success := true, state := state, stmts := 1 }) := by
  have hval : ¬(canonicalId n = "" ∨ jsIsNaNStr (canonicalId n) = true) := by
    simp [canonicalId_ne_empty n, jsIsNaNStr_canonical n]
  refine ⟨?_, ?_, ?_, ?_, ?_⟩
  · simp [putDemandas, canonicalId_ne_empty n, jsIsNaNStr_canonical n]
  · intro h
    simp [putDemandas, canonicalId_ne_empty n, jsIsNaNStr_canonical n, h,
      jsNumberVal_canonical n]
  · intro v h
    simp [putDemandas, canonicalId_ne_empty n, jsIsNaNStr_canonical n, h]
  · intro h
    have hcond : (decide (canonicalId n = "") || jsIsNaNStr (canonicalId n)) = false := by
      simp [canonicalId_ne_empty n, jsIsNaNStr_canonical n]
    simp only [putDemandas, hcond, Bool.false_eq_true, if_false, ite_false]
    have hfix : ∀ r ∈ state,
        (if idMatches (canonicalId n) r then updatedRow r d else r) = r := by
      intro r hr
      rw [idMatches_canonical]
      simp [h r hr]
    show state.map
      (fun r => if idMatches (canonicalId n) r then updatedRow r d else r) = state
    rw [List.map_congr_left hfix]
    simp
  · intro h
    have hcond : (decide (canonicalId n = "") || jsIsNaNStr (canonicalId n)) = false := by
      simp [canonicalId_ne_empty n, jsIsNaNStr_canonical n]
    simp only [deleteDemandas, hcond, Bool.false_eq_true, if_false, ite_false]
    have hfix : ∀ r ∈ state, (!(idMatches (canonicalId n) r)) = true := by
      intro r hr
      rw [idMatches_canonical]
      simp [h r hr]
    rw [List.filter_eq_self.mpr hfix]

/-- Witness for C9's amended no-op semantics on an empty table with id 7. -/
theorem update_delete_missing_id_noop_witness :
    (putDemandas [] (canonicalId 7) emptyReq).demanda = some (.num 7, emptyReq) ∧
    deleteDemandas [] (canonicalId 7) =
      { statusCode := 200, success := true, state := [], stmts := 1 } :=
  ⟨(update_delete_missing_id_noop [] emptyReq 7).2.1 rfl,
   (update_delete_missing_id_noop [] emptyReq 7).2.2.2.2 (by simp)⟩
